import Mathlib

/-!
# Verification of the stock-price forecasting engine

Shallow embedding of the forecasting edge function of the
Stock-Price-Predictor repository: the min-max normalizer, the
linear-regression trend forecaster, the hand-rolled LSTM recurrent
forecaster, and the request orchestrator.

Modelling conventions:

* JavaScript numbers are modelled by `JSNum := Option ℚ`: `some q` is a
  finite number with exact value `q`, and `none` stands for a non-finite
  value (`NaN` or `±Infinity`).  Arithmetic is exact (no rounding); the
  arithmetic operations propagate `none`, matching the propagation of
  `NaN` through JavaScript arithmetic.  `Math.max` / `Math.min` return
  `NaN` when either argument is `NaN`, hence `jsMax` / `jsMin` also
  propagate `none`.  (`±Infinity` behaves differently from `NaN` under
  `Math.min`/`Math.max`, but on the code paths analysed here an infinite
  value can never arise: the only division whose denominator can vanish
  is the normalizer's, and `0/0 = NaN`.)
* Quantities that are provably finite on every execution path of the
  source are modelled directly in `ℚ` (e.g. the whole trend forecaster:
  its single risky division has a provably non-zero denominator, see the
  OLS-denominator theorem below).
* The transcendental functions `Math.exp`, `Math.tanh`, `Math.sqrt` are
  total on finite arguments; they are abstracted as parameters
  `(e tanh sqrt : ℚ → ℚ)`, constrained by hypotheses only where a
  property of the real function is actually needed (`0 < exp x`,
  `0 ≤ sqrt x` for `0 ≤ x`).
* `Math.random` weight initialization always produces finite numbers;
  the sampled LSTM weight matrices and initial readout weights are
  abstracted as parameters, which over-approximates every possible
  sample.
* Calendar dates are modelled by their integer day offset: `today` is an
  arbitrary integer and the date `today + i` stands for the calendar day
  `i` days after today (JavaScript `Date.setDate` arithmetic realises
  exactly this shift, with correct month rollover).
* The `days` query parameter is modelled as an optional integer
  (`none` = parameter absent, in which case the source substitutes the
  string `'30'` before parsing).
-/

namespace StockPredictor

/-- A JavaScript number: `some q` is the finite value `q`, `none` is a
non-finite value (`NaN` / `±Infinity`). -/
abbrev JSNum := Option ℚ

/-- JavaScript addition on numbers (non-finite operands propagate). -/
def jsAdd : JSNum → JSNum → JSNum
  | some a, some b => some (a + b)
  | _, _ => none

/-- JavaScript subtraction on numbers. -/
def jsSub : JSNum → JSNum → JSNum
  | some a, some b => some (a - b)
  | _, _ => none

/-- JavaScript multiplication on numbers. -/
def jsMul : JSNum → JSNum → JSNum
  | some a, some b => some (a * b)
  | _, _ => none

/-- JavaScript division: division by zero produces a non-finite value
(`0/0 = NaN`, `x/0 = ±Infinity`). -/
def jsDiv : JSNum → JSNum → JSNum
  | some a, some b => if b = 0 then none else some (a / b)
  | _, _ => none

/-- The source's `Math.max`: returns `NaN` when either argument is `NaN`. -/
def jsMax : JSNum → JSNum → JSNum
  | some a, some b => some (max a b)
  | _, _ => none

/-- The source's `Math.min`: returns `NaN` when either argument is `NaN`. -/
def jsMin : JSNum → JSNum → JSNum
  | some a, some b => some (min a b)
  | _, _ => none

/-- The source's `Math.min(...data)` over a spread of a non-empty list.  (On the
empty list JavaScript returns `Infinity`; the engine only ever calls
this on series of length ≥ 10, so the value at `[]` is irrelevant and
fixed to `0`.) -/
def listMin : List ℚ → ℚ
  | [] => 0
  | x :: xs => xs.foldl min x

/-- The source's `Math.max(...data)` over a spread of a non-empty list. -/
def listMax : List ℚ → ℚ
  | [] => 0
  | x :: xs => xs.foldl max x

/-- Result of `normalizeData`: the normalized series together with the
min/max bounds. -/
structure NormResult where
  normalized : List JSNum
  min : ℚ
  max : ℚ
deriving DecidableEq

/-- The source's `normalizeData` (source lines 21–27): linearly maps each value to
`[0,1]` via `(val - min) / range`.  When `range = 0` (constant series)
every division is `0/0`, i.e. `NaN`. -/
def normalizeData (data : List ℚ) : NormResult :=
  let mn := listMin data
  let mx := listMax data
  let range := mx - mn
  ⟨data.map (fun val => jsDiv (some (val - mn)) (some range)), mn, mx⟩

/-- The source's `denormalize` (source lines 29–31): `normalizedVal * (max - min) + min`. -/
def denormalize (normalizedVal : JSNum) (mn mx : ℚ) : JSNum :=
  jsAdd (jsMul normalizedVal (some (mx - mn))) (some mn)

/-- A single prediction (source `Prediction` interface); the target date
is its integer day offset. -/
structure Prediction where
  date : ℤ
  predicted_price : JSNum
  confidence_lower : JSNum
  confidence_upper : JSNum
deriving DecidableEq

/-! ## Trend forecaster (`predictLinearRegression`, source lines 33–88)

The fitting loop accumulates `sumX`, `sumY`, `sumXY`, `sumX2` over the
indices `0 ≤ i < recentPrices.length`; with exact (commutative,
associative) arithmetic these accumulations are the corresponding sums
over `Finset.range`.  All divisions on this path have provably non-zero
denominators (see `trend_window_and_denominator_nonzero`), so the whole
forecaster is modelled in plain `ℚ`. -/

/-- The source's `sumX = Σ_{i<len} i` of the fitting loop. -/
def olsSumX (len : ℕ) : ℚ := ∑ i in Finset.range len, (i : ℚ)

/-- The source's `sumX2 = Σ_{i<len} i·i` of the fitting loop. -/
def olsSumX2 (len : ℕ) : ℚ := ∑ i in Finset.range len, (i : ℚ) * (i : ℚ)

/-- The source's `sumY = Σ_i recentPrices[i]` of the fitting loop. -/
def olsSumY (prices : List ℚ) : ℚ :=
  ∑ i in Finset.range prices.length, prices.getD i 0

/-- The source's `sumXY = Σ_i i·recentPrices[i]` of the fitting loop. -/
def olsSumXY (prices : List ℚ) : ℚ :=
  ∑ i in Finset.range prices.length, (i : ℚ) * prices.getD i 0

/-- The source's `windowSize = Math.min(30, Math.floor(n / 3))` (source line 41). -/
def windowSize (n : ℕ) : ℕ := min 30 (n / 3)

/-- The source's `recentPrices = historicalPrices.slice(-windowSize)` (source line 42). -/
def lrRecent (prices : List ℚ) : List ℚ :=
  prices.drop (prices.length - windowSize prices.length)

/-- The OLS denominator `recentPrices.length * sumX2 - sumX * sumX`
(source line 54). -/
def olsDenom (len : ℕ) : ℚ := (len : ℚ) * olsSumX2 len - olsSumX len * olsSumX len

/-- The source's `slope` of the OLS fit (source lines 53–54). -/
def lrSlope (recent : List ℚ) : ℚ :=
  ((recent.length : ℚ) * olsSumXY recent - olsSumX recent.length * olsSumY recent) /
    olsDenom recent.length

/-- The source's `intercept` of the OLS fit (source line 55). -/
def lrIntercept (recent : List ℚ) : ℚ :=
  (olsSumY recent - lrSlope recent * olsSumX recent.length) / (recent.length : ℚ)

/-- The source's `mean = sumY / recentPrices.length` (source line 57). -/
def lrMean (recent : List ℚ) : ℚ := olsSumY recent / (recent.length : ℚ)

/-- Population variance of the fitting window (source line 58). -/
def lrVariance (recent : List ℚ) : ℚ :=
  ((recent.map (fun price => (price - lrMean recent) ^ 2)).sum) / (recent.length : ℚ)

/-- Confidence half-width of the trend model for horizon index `i` of
`d`: `stdDev * (1 + (i / daysToPredict) * 0.5) * 1.96`
(source lines 73–74). -/
def lrConfidenceRange (stdDev : ℚ) (d i : ℕ) : ℚ :=
  stdDev * (1 + ((i : ℚ) / (d : ℚ)) * (1 / 2)) * (196 / 100)

/-- The prediction pushed for day `i` (`1 ≤ i ≤ d`) of the trend
forecaster (source lines 64–85). -/
def lrPrediction (sqrt : ℚ → ℚ) (today : ℤ) (prices : List ℚ) (d i : ℕ) : Prediction :=
  let recent := lrRecent prices
  let lastPrice := prices.getD (prices.length - 1) 0
  let predictedPrice := lrSlope recent * ((recent.length : ℚ) + (i : ℚ)) + lrIntercept recent
  let maxChange := lastPrice * (15 / 100)
  let clampedPrice := max (lastPrice - maxChange) (min (lastPrice + maxChange) predictedPrice)
  let confidenceRange := lrConfidenceRange (sqrt (lrVariance recent)) d i
  ⟨today + (i : ℤ),
   some (max 0 clampedPrice),
   some (max 0 (clampedPrice - confidenceRange)),
   some (clampedPrice + confidenceRange)⟩

/-- The full list of trend predictions, day 1 through day `d`. -/
def lrPredictions (sqrt : ℚ → ℚ) (today : ℤ) (prices : List ℚ) (d : ℕ) : List Prediction :=
  (List.range' 1 d).map (lrPrediction sqrt today prices d)

/-- The source's `predictLinearRegression` (source lines 33–88). -/
def predictLinearRegression (sqrt : ℚ → ℚ) (today : ℤ) (prices : List ℚ) (d : ℕ) :
    Except String (List Prediction) :=
  if prices.length < 10 then .error "Insufficient historical data for prediction"
  else .ok (lrPredictions sqrt today prices d)

/-! ## Recurrent forecaster (`SimpleLSTMCell`, `SimpleLSTM`, `predictLSTM`,
source lines 90–266)

The cell's mutable fields become explicit state passing.  `sigmoid` uses
the abstract exponential `e`, `tanh` is the abstract parameter `th`.
JavaScript's `arr.map((v, i) => f(i, v))` over an array of length `k`,
and loops `for (let i = 0; i < k; i++)` reading `arr[i]`, are rendered
as `(List.range k).map (fun i => f i (arr.getD i none))`; an index read
out of bounds gives `undefined`, which behaves as a non-finite value
(`none`) in arithmetic. -/

/-- The source's `sigmoid(x) = 1 / (1 + Math.exp(-x))` (source lines 90–92) with the
exponential abstracted as `e`. -/
def sigmoid (e : ℚ → ℚ) (x : JSNum) : JSNum :=
  jsDiv (some 1) (jsAdd (some 1) (x.map (fun t => e (-t))))

/-- The source's `tanh` (source lines 94–96) with the hyperbolic tangent abstracted
as `th`. -/
def tanhJS (th : ℚ → ℚ) (x : JSNum) : JSNum := x.map th

/-- The four gate weight matrices of `SimpleLSTMCell` (its private
fields; each row list is one row of a `hidden × (1 + hidden)` matrix of
finite random numbers). -/
structure LSTMCellWeights where
  Wf : List (List ℚ)
  Wi : List (List ℚ)
  Wc : List (List ℚ)
  Wo : List (List ℚ)
deriving DecidableEq

/-- One row of `matMul` (source lines 125–135): the dot product
`Σ_{j<input.length} weights[i][j] * input[j]`, accumulated left to
right. -/
def dotRow (row : List ℚ) (input : List JSNum) : JSNum :=
  (List.range input.length).foldl
    (fun s j => jsAdd s (jsMul (row.get? j) (input.getD j none))) (some 0)

/-- The source's `matMul` (source lines 125–135). -/
def matMul (weights : List (List ℚ)) (input : List JSNum) : List JSNum :=
  weights.map (fun row => dotRow row input)

/-- The source's `SimpleLSTMCell.forward` (source lines 137–149), returning
`(newH, newC)`. -/
def lstmForward (th e : ℚ → ℚ) (w : LSTMCellWeights) (x : JSNum) (h c : List JSNum) :
    List JSNum × List JSNum :=
  let combined := x :: h
  let ft := (matMul w.Wf combined).map (sigmoid e)
  let it := (matMul w.Wi combined).map (sigmoid e)
  let cTilde := (matMul w.Wc combined).map (tanhJS th)
  let ot := (matMul w.Wo combined).map (sigmoid e)
  let newC := (List.range c.length).map (fun i =>
    jsAdd (jsMul (ft.getD i none) (c.getD i none)) (jsMul (it.getD i none) (cTilde.getD i none)))
  let newH := (List.range newC.length).map (fun i =>
    jsMul (ot.getD i none) (tanhJS th (newC.getD i none)))
  (newH, newC)

/-- The `SimpleLSTM` model: cell weights, hidden size and the linear
readout vector `outputWeights`. -/
structure SimpleLSTM where
  cell : LSTMCellWeights
  hiddenSize : ℕ
  outputWeights : List JSNum
deriving DecidableEq

/-- The readout `h.reduce((sum, val, idx) => sum + val * outputWeights[idx], 0)`
(source line 175 / 203). -/
def dotHS (h ow : List JSNum) : JSNum :=
  (List.range h.length).foldl
    (fun s j => jsAdd s (jsMul (h.getD j none) (ow.getD j none))) (some 0)

/-- One step of the training inner loop (source lines 170–181): one
forward pass, readout prediction, error against the next value, and the
readout-weight update `ow[j] += 0.001 * error * h[j]`.  State is
`(outputWeights, h, c)`. -/
def lstmTrainStep (th e : ℚ → ℚ) (cell : LSTMCellWeights) (hiddenSize : ℕ)
    (st : List JSNum × List JSNum × List JSNum) (xy : JSNum × JSNum) :
    List JSNum × List JSNum × List JSNum :=
  let r := lstmForward th e cell xy.1 st.2.1 st.2.2
  let predicted := dotHS r.1 st.1
  let error := jsSub xy.2 predicted
  let ow := (List.range hiddenSize).map (fun j =>
    jsAdd (st.1.getD j none) (jsMul (jsMul (some (1 / 1000)) error) (r.1.getD j none)))
  (ow, r.1, r.2)

/-- One training epoch (source lines 166–181): `h` and `c` are reset to
zero vectors, then the inner loop runs over the adjacent pairs
`(data[i], data[i+1])`. -/
def lstmTrainEpoch (th e : ℚ → ℚ) (cell : LSTMCellWeights) (hiddenSize : ℕ)
    (data : List JSNum) (ow : List JSNum) : List JSNum :=
  ((data.zip data.tail).foldl (lstmTrainStep th e cell hiddenSize)
    (ow, List.replicate hiddenSize (some 0), List.replicate hiddenSize (some 0))).1

/-- The source's `SimpleLSTM.train` (source lines 163–183): `epochs` passes of the
online readout-only update; only `outputWeights` is reassigned. -/
def SimpleLSTM.train (th e : ℚ → ℚ) (m : SimpleLSTM) (data : List JSNum) (epochs : ℕ) :
    SimpleLSTM :=
  ⟨m.cell, m.hiddenSize,
   (List.range epochs).foldl (fun ow _ => lstmTrainEpoch th e m.cell m.hiddenSize data ow)
     m.outputWeights⟩

/-- One step of the autoregressive prediction loop (source
lines 198–206).  State is `(predictions, lastInput, h, c)`. -/
def lstmPredictStep (th e : ℚ → ℚ) (m : SimpleLSTM)
    (st : List JSNum × JSNum × List JSNum × List JSNum) (_i : ℕ) :
    List JSNum × JSNum × List JSNum × List JSNum :=
  let r := lstmForward th e m.cell st.2.1 st.2.2.1 st.2.2.2
  let predicted := dotHS r.1 m.outputWeights
  (st.1 ++ [predicted], predicted, r.1, r.2)

/-- The source's `SimpleLSTM.predict` (source lines 185–209): warm up on
`lastValues`, then predict `steps` values autoregressively. -/
def SimpleLSTM.predict (th e : ℚ → ℚ) (m : SimpleLSTM) (lastValues : List JSNum)
    (steps : ℕ) : List JSNum :=
  let hc := lastValues.foldl
    (fun hc v => lstmForward th e m.cell v hc.1 hc.2)
    (List.replicate m.hiddenSize (some 0), List.replicate m.hiddenSize (some 0))
  let lastInput := lastValues.getD (lastValues.length - 1) none
  ((List.range steps).foldl (lstmPredictStep th e m) ([], lastInput, hc.1, hc.2)).1

/-- Mean of a list, `reduce((sum, p) => sum + p, 0) / length`
(source line 232). -/
def meanList (l : List ℚ) : ℚ := l.sum / (l.length : ℚ)

/-- Population variance of a list (source line 233). -/
def varianceList (l : List ℚ) : ℚ :=
  ((l.map (fun price => (price - meanList l) ^ 2)).sum) / (l.length : ℚ)

/-- The post-processed prediction for (0-indexed) day `i` of the
recurrent forecaster (source lines 239–262): exponential smoothing
toward the last price, ±20 % clamping, confidence band
`stdDev * (1 + (i/d) * 0.6) * 2.0`, target date `today + i + 1`. -/
def lstmDayPrediction (e : ℚ → ℚ) (today : ℤ) (lastPrice stdDev : ℚ) (d i : ℕ)
    (rawPrediction : JSNum) : Prediction :=
  let smoothingFactor : ℚ := 7 / 10 + 3 / 10 * e (-(i : ℚ) / 10)
  let smoothedPrediction :=
    jsAdd (jsMul rawPrediction (some smoothingFactor)) (some (lastPrice * (1 - smoothingFactor)))
  let maxDeviation := lastPrice * (20 / 100)
  let clampedPrice :=
    jsMax (some (lastPrice - maxDeviation)) (jsMin (some (lastPrice + maxDeviation)) smoothedPrediction)
  let confidenceRange := stdDev * (1 + ((i : ℚ) / (d : ℚ)) * (6 / 10)) * 2
  ⟨today + (i : ℤ) + 1,
   jsMax (some 0) clampedPrice,
   jsMax (some 0) (jsSub clampedPrice (some confidenceRange)),
   jsAdd clampedPrice (some confidenceRange)⟩

/-- The recurrent forecaster's prediction list (source lines 220–263):
normalize, train a fresh hidden-size-50 LSTM for 50 epochs, warm up on
the last `min(60, n)` normalized values, predict `d` values
autoregressively, denormalize and post-process. -/
def lstmPredictions (sqrt th e : ℚ → ℚ) (cellW : LSTMCellWeights) (ow0 : List JSNum)
    (today : ℤ) (prices : List ℚ) (d : ℕ) : List Prediction :=
  let n := prices.length
  let norm := normalizeData prices
  let lstm := SimpleLSTM.train th e ⟨cellW, 50, ow0⟩ norm.normalized 50
  let lookbackWindow := min 60 n
  let lastValues := norm.normalized.drop (norm.normalized.length - lookbackWindow)
  let normalizedPredictions := lstm.predict th e lastValues d
  let actualPredictions := normalizedPredictions.map (fun v => denormalize v norm.min norm.max)
  let recentPrices := prices.drop (n - 30)
  let stdDev := sqrt (varianceList recentPrices)
  let lastPrice := prices.getD (n - 1) 0
  (List.range d).map (fun i =>
    lstmDayPrediction e today lastPrice stdDev d i (actualPredictions.getD i none))

/-- The source's `predictLSTM` (source lines 212–266). -/
def predictLSTM (sqrt th e : ℚ → ℚ) (cellW : LSTMCellWeights) (ow0 : List JSNum)
    (today : ℤ) (prices : List ℚ) (d : ℕ) : Except String (List Prediction) :=
  if prices.length < 60 then .error "LSTM requires at least 60 days of historical data"
  else .ok (lstmPredictions sqrt th e cellW ow0 today prices d)

/-! ## Orchestrator (`Deno.serve` handler, source lines 268–423)

The embedding models a non-`OPTIONS` request with a numeric-or-absent
`days` parameter and the database fetch abstracted as an
`Except String (List ℚ)` input.  The persistence insert (source
lines 353–384) has no influence on the response (its failure is not even
inspected) and is not modelled. -/

/-- One entry of the response's model list. -/
structure ModelPredictions where
  model : String
  predictions : List Prediction
deriving DecidableEq

/-- The successful response payload (source lines 400–412). -/
structure ForecastSuccess where
  ticker : String
  prediction_days : ℤ
  models : List ModelPredictions
  lstm_error : Option String
deriving DecidableEq

/-- A response body: an error object or the forecast payload. -/
inductive ResponseBody where
  | failure : String → ResponseBody
  | payload : ForecastSuccess → ResponseBody
deriving DecidableEq

/-- An HTTP response: status code and body. -/
structure Response where
  status : ℕ
  body : ResponseBody
deriving DecidableEq

/-- The request handler (source lines 276–412): ticker check, days
validation, data fetch, trend forecast (its failure is request-fatal),
guarded recurrent forecast with caught errors, and response assembly.
The source tests `!ticker` on the upper-cased ticker; since
`toUpperCase` preserves (non-)emptiness, this is equivalent to testing
the raw parameter for absence/emptiness, which is how the check is
rendered here; the upper-cased ticker is still the value echoed in the
response. -/
def handleRequest (sqrt th e : ℚ → ℚ) (cellW : LSTMCellWeights) (ow0 : List JSNum)
    (today : ℤ) (tickerParam : Option String) (daysParam : Option ℤ)
    (dbResult : Except String (List ℚ)) : Response :=
  let ticker := (tickerParam.map String.toUpper).getD ""
  let days := daysParam.getD 30
  if tickerParam.getD "" = "" then ⟨400, .failure "Ticker symbol is required"⟩
  else if days < 1 ∨ 90 < days then ⟨400, .failure "Days must be between 1 and 90"⟩
  else
    match dbResult with
    | .error _ => ⟨500, .failure "Failed to fetch historical data"⟩
    | .ok closingPrices =>
      if closingPrices.length < 10 then
        ⟨400, .failure "Insufficient historical data. Please fetch stock data first."⟩
      else
        match predictLinearRegression sqrt today closingPrices days.toNat with
        | .error msg => ⟨500, .failure ("Internal server error: " ++ msg)⟩
        | .ok lrPreds =>
          let lstmOutcome :=
            if 60 ≤ closingPrices.length then
              match predictLSTM sqrt th e cellW ow0 today closingPrices days.toNat with
              | .ok ps => (ps, (none : Option String))
              | .error msg => (([] : List Prediction), some msg)
            else ([], some "Insufficient data for LSTM (requires 60+ days)")
          let models := ModelPredictions.mk "linear_regression" lrPreds ::
            (if 0 < lstmOutcome.1.length then [ModelPredictions.mk "lstm" lstmOutcome.1] else [])
          ⟨200, .payload ⟨ticker, days, models, lstmOutcome.2⟩⟩

/-! ## Basic lemmas about the JavaScript-number model -/

theorem jsAdd_some (a b : ℚ) : jsAdd (some a) (some b) = some (a + b) := rfl

theorem jsMul_some (a b : ℚ) : jsMul (some a) (some b) = some (a * b) := rfl

theorem jsSub_some (a b : ℚ) : jsSub (some a) (some b) = some (a - b) := rfl

theorem jsAdd_none_right (a : JSNum) : jsAdd a none = none := by cases a <;> rfl

theorem jsAdd_none_left (a : JSNum) : jsAdd none a = none := by cases a <;> rfl

theorem jsMul_none_right (a : JSNum) : jsMul a none = none := by cases a <;> rfl

theorem jsMul_none_left (a : JSNum) : jsMul none a = none := by cases a <;> rfl

theorem jsSub_none_right (a : JSNum) : jsSub a none = none := by cases a <;> rfl

theorem jsMax_none_right (a : JSNum) : jsMax a none = none := by cases a <;> rfl

theorem jsMin_none_right (a : JSNum) : jsMin a none = none := by cases a <;> rfl

theorem jsAdd_isSome {a b : JSNum} (ha : a.isSome) (hb : b.isSome) : (jsAdd a b).isSome := by
  obtain ⟨x, rfl⟩ := Option.isSome_iff_exists.1 ha
  obtain ⟨y, rfl⟩ := Option.isSome_iff_exists.1 hb
  rfl

theorem jsMul_isSome {a b : JSNum} (ha : a.isSome) (hb : b.isSome) : (jsMul a b).isSome := by
  obtain ⟨x, rfl⟩ := Option.isSome_iff_exists.1 ha
  obtain ⟨y, rfl⟩ := Option.isSome_iff_exists.1 hb
  rfl

theorem jsSub_isSome {a b : JSNum} (ha : a.isSome) (hb : b.isSome) : (jsSub a b).isSome := by
  obtain ⟨x, rfl⟩ := Option.isSome_iff_exists.1 ha
  obtain ⟨y, rfl⟩ := Option.isSome_iff_exists.1 hb
  rfl

/-- Every element of a list is a finite number. -/
def allSome (l : List JSNum) : Prop := ∀ x ∈ l, x.isSome

/-- Every element of a list is non-finite. -/
def allNone (l : List JSNum) : Prop := ∀ x ∈ l, x = none

/-- A list of `k` finite numbers. -/
def good (l : List JSNum) (k : ℕ) : Prop := l.length = k ∧ allSome l

theorem getD_none_of_allNone {l : List JSNum} (h : allNone l) (j : ℕ) :
    l.getD j none = none := by
  rcases lt_or_le j l.length with hj | hj
  · rw [List.getD_eq_getElem _ _ hj]
    exact h _ (List.getElem_mem hj)
  · exact List.getD_eq_default _ _ hj

theorem getD_isSome_of_good {l : List JSNum} {k : ℕ} (h : good l k) {j : ℕ} (hj : j < k) :
    (l.getD j none).isSome := by
  rw [List.getD_eq_getElem _ _ (h.1 ▸ hj)]
  exact h.2 _ (List.getElem_mem _)

theorem allSome_replicate (k : ℕ) (q : ℚ) : allSome (List.replicate k (some q)) := by
  intro x hx
  rw [List.eq_of_mem_replicate hx]
  rfl

theorem good_replicate (k : ℕ) (q : ℚ) : good (List.replicate k (some q)) k :=
  ⟨List.length_replicate .., allSome_replicate k q⟩

/-! ### Folds of `jsAdd`-accumulations -/

theorem foldl_jsAdd_none {α : Type} (F : α → JSNum) (l : List α) :
    l.foldl (fun s j => jsAdd s (F j)) none = none := by
  induction l with
  | nil => rfl
  | cons a l ih => simpa [jsAdd_none_left] using ih

theorem foldl_jsAdd_isSome {α : Type} (F : α → JSNum) (l : List α) (q : ℚ)
    (hF : ∀ j ∈ l, (F j).isSome) :
    (l.foldl (fun s j => jsAdd s (F j)) (some q)).isSome := by
  induction l generalizing q with
  | nil => rfl
  | cons a l ih =>
    have ha : (F a).isSome := hF a (by simp)
    obtain ⟨x, hx⟩ := Option.isSome_iff_exists.1 ha
    simp only [List.foldl_cons, hx, jsAdd_some]
    exact ih _ (fun j hj => hF j (by simp [hj]))

/-! ### Dot products -/

theorem dotRow_none_head (row : List ℚ) (rest : List JSNum) :
    dotRow row (none :: rest) = none := by
  unfold dotRow
  have hlen : (none :: rest).length = rest.length + 1 := rfl
  rw [hlen, List.range_succ_eq_map, List.foldl_cons]
  have h0 : jsMul (row.get? 0) ((none :: rest).getD 0 none) = none := by
    simp [List.getD, jsMul_none_right]
  rw [h0, jsAdd_none_right]
  exact foldl_jsAdd_none _ _

theorem dotRow_isSome (row : List ℚ) (input : List JSNum)
    (hlen : input.length ≤ row.length) (hin : allSome input) : (dotRow row input).isSome := by
  unfold dotRow
  apply foldl_jsAdd_isSome
  intro j hj
  rw [List.mem_range] at hj
  apply jsMul_isSome
  · rw [List.get?_eq_getElem?, List.getElem?_eq_getElem (lt_of_lt_of_le hj hlen)]
    rfl
  · exact getD_isSome_of_good ⟨rfl, hin⟩ hj

theorem dotHS_none {h ow : List JSNum} (hh : allNone h) (hne : h ≠ []) :
    dotHS h ow = none := by
  unfold dotHS
  obtain ⟨x, rest, rfl⟩ := List.exists_cons_of_ne_nil hne
  have hlen : (x :: rest).length = rest.length + 1 := rfl
  rw [hlen, List.range_succ_eq_map, List.foldl_cons]
  have h0 : jsMul ((x :: rest).getD 0 none) (ow.getD 0 none) = none := by
    have : (x :: rest).getD 0 none = none := getD_none_of_allNone hh 0
    rw [this, jsMul_none_left]
  rw [h0, jsAdd_none_right]
  exact foldl_jsAdd_none _ _

theorem dotHS_isSome {h ow : List JSNum} {k : ℕ} (hh : good h k) (how : good ow k) :
    (dotHS h ow).isSome := by
  unfold dotHS
  apply foldl_jsAdd_isSome
  intro j hj
  rw [List.mem_range, hh.1] at hj
  exact jsMul_isSome (getD_isSome_of_good hh hj) (getD_isSome_of_good how hj)

/-! ### `sigmoid` and `tanh` -/

theorem sigmoid_none (e : ℚ → ℚ) : sigmoid e none = none := rfl

theorem tanhJS_none (th : ℚ → ℚ) : tanhJS th none = none := rfl

theorem sigmoid_isSome {e : ℚ → ℚ} (he : ∀ t, 0 < e t) {x : JSNum} (hx : x.isSome) :
    (sigmoid e x).isSome := by
  obtain ⟨q, rfl⟩ := Option.isSome_iff_exists.1 hx
  have hpos : (0 : ℚ) < 1 + e (-q) := by linarith [he (-q)]
  simp [sigmoid, jsAdd_some, jsDiv, ne_of_gt hpos]

theorem tanhJS_isSome (th : ℚ → ℚ) {x : JSNum} (hx : x.isSome) : (tanhJS th x).isSome := by
  obtain ⟨q, rfl⟩ := Option.isSome_iff_exists.1 hx
  rfl

/-! ### `listMin` / `listMax` -/

theorem foldl_min_le_init (l : List ℚ) (a : ℚ) : l.foldl min a ≤ a := by
  induction l generalizing a with
  | nil => exact le_refl a
  | cons x xs ih => exact le_trans (ih (min a x)) (min_le_left a x)

theorem foldl_min_le_mem {l : List ℚ} {x : ℚ} (hx : x ∈ l) (a : ℚ) : l.foldl min a ≤ x := by
  induction l generalizing a with
  | nil => cases hx
  | cons y ys ih =>
    rcases List.mem_cons.1 hx with rfl | hmem
    · exact le_trans (foldl_min_le_init ys (min a x)) (min_le_right a x)
    · exact ih hmem (min a y)

theorem init_le_foldl_max (l : List ℚ) (a : ℚ) : a ≤ l.foldl max a := by
  induction l generalizing a with
  | nil => exact le_refl a
  | cons x xs ih => exact le_trans (le_max_left a x) (ih (max a x))

theorem mem_le_foldl_max {l : List ℚ} {x : ℚ} (hx : x ∈ l) (a : ℚ) : x ≤ l.foldl max a := by
  induction l generalizing a with
  | nil => cases hx
  | cons y ys ih =>
    rcases List.mem_cons.1 hx with rfl | hmem
    · exact le_trans (le_max_right a x) (init_le_foldl_max ys (max a x))
    · exact ih hmem (max a y)

theorem listMin_le {l : List ℚ} {x : ℚ} (hx : x ∈ l) : listMin l ≤ x := by
  cases l with
  | nil => cases hx
  | cons y ys =>
    rcases List.mem_cons.1 hx with rfl | hmem
    · exact foldl_min_le_init ys x
    · exact foldl_min_le_mem hmem y

theorem le_listMax {l : List ℚ} {x : ℚ} (hx : x ∈ l) : x ≤ listMax l := by
  cases l with
  | nil => cases hx
  | cons y ys =>
    rcases List.mem_cons.1 hx with rfl | hmem
    · exact init_le_foldl_max ys x
    · exact mem_le_foldl_max hmem y

/-- A list with two distinct members has a non-degenerate normalization
range. -/
theorem range_ne_zero_of_two_mem {l : List ℚ} {a b : ℚ} (ha : a ∈ l) (hb : b ∈ l)
    (hab : a ≠ b) : listMax l - listMin l ≠ 0 := by
  intro h
  have heq : listMax l = listMin l := by linarith [sub_eq_zero.1 h]
  exact hab (le_antisymm
    (le_trans (le_listMax ha) (heq ▸ listMin_le hb))
    (le_trans (le_listMax hb) (heq ▸ listMin_le ha)))

/-! ### OLS closed forms and the non-zero denominator -/

theorem olsSumX_closed (n : ℕ) : olsSumX n = (n : ℚ) * ((n : ℚ) - 1) / 2 := by
  induction n with
  | zero => simp [olsSumX]
  | succ k ih =>
    rw [olsSumX, Finset.sum_range_succ, ← olsSumX, ih]
    push_cast
    ring

theorem olsSumX2_closed (n : ℕ) :
    olsSumX2 n = (n : ℚ) * ((n : ℚ) - 1) * (2 * (n : ℚ) - 1) / 6 := by
  induction n with
  | zero => simp [olsSumX2]
  | succ k ih =>
    rw [olsSumX2, Finset.sum_range_succ, ← olsSumX2, ih]
    push_cast
    ring

theorem olsDenom_closed (n : ℕ) :
    olsDenom n = (n : ℚ) * (n : ℚ) * ((n : ℚ) - 1) * ((n : ℚ) + 1) / 12 := by
  rw [olsDenom, olsSumX_closed, olsSumX2_closed]
  ring

theorem olsDenom_pos {n : ℕ} (hn : 2 ≤ n) : 0 < olsDenom n := by
  rw [olsDenom_closed]
  have h2 : (2 : ℚ) ≤ (n : ℚ) := by exact_mod_cast hn
  have h0 : (0 : ℚ) < (n : ℚ) := by linarith
  have h1 : (0 : ℚ) < (n : ℚ) - 1 := by linarith
  have h3 : (0 : ℚ) < (n : ℚ) + 1 := by linarith
  positivity

theorem windowSize_le (n : ℕ) : windowSize n ≤ n := by
  unfold windowSize
  omega

theorem three_le_windowSize {n : ℕ} (h : 10 ≤ n) : 3 ≤ windowSize n := by
  unfold windowSize
  omega

theorem lrRecent_length (l : List ℚ) : (lrRecent l).length = windowSize l.length := by
  unfold lrRecent
  rw [List.length_drop]
  have := windowSize_le l.length
  omega

/-! ### Constant series: the normalizer divides by zero -/

theorem foldl_min_const {a : ℚ} : ∀ (l : List ℚ), (∀ x ∈ l, x = a) → l.foldl min a = a
  | [], _ => rfl
  | x :: xs, h => by
    have hx : x = a := h x (by simp)
    have : min a x = a := by rw [hx, min_self]
    rw [List.foldl_cons, this]
    exact foldl_min_const xs (fun y hy => h y (by simp [hy]))

theorem foldl_max_const {a : ℚ} : ∀ (l : List ℚ), (∀ x ∈ l, x = a) → l.foldl max a = a
  | [], _ => rfl
  | x :: xs, h => by
    have hx : x = a := h x (by simp)
    have : max a x = a := by rw [hx, max_self]
    rw [List.foldl_cons, this]
    exact foldl_max_const xs (fun y hy => h y (by simp [hy]))

theorem listMin_const {l : List ℚ} {a : ℚ} (hne : l ≠ []) (h : ∀ x ∈ l, x = a) :
    listMin l = a := by
  obtain ⟨x, xs, rfl⟩ := List.exists_cons_of_ne_nil hne
  have hx : x = a := h x (by simp)
  subst hx
  exact foldl_min_const xs (fun y hy => h y (by simp [hy]))

theorem listMax_const {l : List ℚ} {a : ℚ} (hne : l ≠ []) (h : ∀ x ∈ l, x = a) :
    listMax l = a := by
  obtain ⟨x, xs, rfl⟩ := List.exists_cons_of_ne_nil hne
  have hx : x = a := h x (by simp)
  subst hx
  exact foldl_max_const xs (fun y hy => h y (by simp [hy]))

theorem normalizeData_const_allNone {l : List ℚ} {a : ℚ} (hne : l ≠ [])
    (h : ∀ x ∈ l, x = a) : allNone (normalizeData l).normalized := by
  intro y hy
  simp only [normalizeData] at hy
  obtain ⟨v, _, rfl⟩ := List.mem_map.1 hy
  rw [listMax_const hne h, listMin_const hne h]
  simp [jsDiv]

theorem normalizeData_length (l : List ℚ) : (normalizeData l).normalized.length = l.length := by
  simp [normalizeData]

/-! ### NaN propagation through the recurrent cell -/

theorem allNone_range_map {k : ℕ} {F : ℕ → JSNum} (hF : ∀ i < k, F i = none) :
    allNone ((List.range k).map F) := by
  intro x hx
  obtain ⟨i, hi, rfl⟩ := List.mem_map.1 hx
  exact hF i (List.mem_range.1 hi)

theorem allNone_map_sigmoid_matMul (e : ℚ → ℚ) (W : List (List ℚ)) (rest : List JSNum) :
    allNone ((matMul W (none :: rest)).map (sigmoid e)) := by
  intro x hx
  obtain ⟨y, hy, rfl⟩ := List.mem_map.1 hx
  obtain ⟨row, _, rfl⟩ := List.mem_map.1 hy
  rw [dotRow_none_head, sigmoid_none]

theorem allNone_map_tanh_matMul (th : ℚ → ℚ) (W : List (List ℚ)) (rest : List JSNum) :
    allNone ((matMul W (none :: rest)).map (tanhJS th)) := by
  intro x hx
  obtain ⟨y, hy, rfl⟩ := List.mem_map.1 hx
  obtain ⟨row, _, rfl⟩ := List.mem_map.1 hy
  rw [dotRow_none_head, tanhJS_none]

theorem lstmForward_fst_length (th e : ℚ → ℚ) (w : LSTMCellWeights) (x : JSNum)
    (h c : List JSNum) : (lstmForward th e w x h c).1.length = c.length := by
  simp [lstmForward]

theorem lstmForward_snd_length (th e : ℚ → ℚ) (w : LSTMCellWeights) (x : JSNum)
    (h c : List JSNum) : (lstmForward th e w x h c).2.length = c.length := by
  simp [lstmForward]

theorem lstmForward_x_none (th e : ℚ → ℚ) (w : LSTMCellWeights) (h c : List JSNum) :
    allNone (lstmForward th e w none h c).1 ∧ allNone (lstmForward th e w none h c).2 := by
  have hft := allNone_map_sigmoid_matMul e w.Wf h
  have hot := allNone_map_sigmoid_matMul e w.Wo h
  have hsnd : allNone (lstmForward th e w none h c).2 := by
    simp only [lstmForward]
    apply allNone_range_map
    intro i _
    rw [getD_none_of_allNone hft, jsMul_none_left, jsAdd_none_left]
  refine ⟨?_, hsnd⟩
  have hlen := lstmForward_snd_length th e w none h c
  simp only [lstmForward] at hsnd hlen ⊢
  simp only [List.length_map, List.length_range]
  apply allNone_range_map
  intro i _
  rw [getD_none_of_allNone hot, jsMul_none_left]

/-! ### NaN propagation through training -/

theorem lstmTrainStep_ow_allNone {th e : ℚ → ℚ} {cell : LSTMCellWeights} {hiddenSize : ℕ}
    {st : List JSNum × List JSNum × List JSNum} {xy : JSNum × JSNum}
    (how : allNone st.1) : allNone (lstmTrainStep th e cell hiddenSize st xy).1 := by
  simp only [lstmTrainStep]
  apply allNone_range_map
  intro j _
  rw [getD_none_of_allNone how, jsAdd_none_left]

theorem lstmTrainStep_x_none (th e : ℚ → ℚ) (cell : LSTMCellWeights) (hiddenSize : ℕ)
    (st : List JSNum × List JSNum × List JSNum) (y : JSNum) :
    allNone (lstmTrainStep th e cell hiddenSize st (none, y)).1 := by
  simp only [lstmTrainStep]
  apply allNone_range_map
  intro j _
  rw [getD_none_of_allNone (lstmForward_x_none th e cell st.2.1 st.2.2).1,
    jsMul_none_right, jsAdd_none_right]

theorem lstmTrainStep_c_length (th e : ℚ → ℚ) (cell : LSTMCellWeights) (hiddenSize : ℕ)
    (st : List JSNum × List JSNum × List JSNum) (xy : JSNum × JSNum) :
    (lstmTrainStep th e cell hiddenSize st xy).2.2.length = st.2.2.length := by
  simp only [lstmTrainStep]
  exact lstmForward_snd_length ..

theorem foldl_trainStep_ow_allNone (th e : ℚ → ℚ) (cell : LSTMCellWeights) (hiddenSize : ℕ)
    (ps : List (JSNum × JSNum)) (st : List JSNum × List JSNum × List JSNum)
    (how : allNone st.1) :
    allNone (ps.foldl (lstmTrainStep th e cell hiddenSize) st).1 := by
  induction ps generalizing st with
  | nil => exact how
  | cons p ps ih => exact ih _ (lstmTrainStep_ow_allNone how)

theorem lstmTrainEpoch_allNone (th e : ℚ → ℚ) (cell : LSTMCellWeights) (hiddenSize : ℕ)
    {data : List JSNum} (hdata : allNone data) (hlen : 2 ≤ data.length) (ow : List JSNum) :
    allNone (lstmTrainEpoch th e cell hiddenSize data ow) := by
  obtain ⟨a, data', rfl⟩ := List.exists_cons_of_ne_nil
    (l := data) (by rintro rfl; simp at hlen)
  obtain ⟨b, data'', rfl⟩ := List.exists_cons_of_ne_nil
    (l := data') (by rintro rfl; simp at hlen)
  have ha : a = none := hdata a (by simp)
  subst ha
  unfold lstmTrainEpoch
  rw [List.tail_cons, List.zip_cons_cons, List.foldl_cons]
  apply foldl_trainStep_ow_allNone
  exact lstmTrainStep_x_none th e cell hiddenSize
    (ow, List.replicate hiddenSize (some 0), List.replicate hiddenSize (some 0)) b

theorem train_allNone (th e : ℚ → ℚ) (m : SimpleLSTM) {data : List JSNum}
    (hdata : allNone data) (hlen : 2 ≤ data.length) {epochs : ℕ} (hep : 0 < epochs) :
    allNone (SimpleLSTM.train th e m data epochs).outputWeights := by
  obtain ⟨n, rfl⟩ := Nat.exists_eq_succ_of_ne_zero (Nat.pos_iff_ne_zero.1 hep)
  unfold SimpleLSTM.train
  rw [List.range_succ, List.foldl_append, List.foldl_cons, List.foldl_nil]
  exact lstmTrainEpoch_allNone th e m.cell m.hiddenSize hdata hlen _

/-! ### NaN propagation through prediction -/

theorem foldl_forward_c_length (th e : ℚ → ℚ) (w : LSTMCellWeights) :
    ∀ (vs : List JSNum) (h c : List JSNum),
      (vs.foldl (fun hc v => lstmForward th e w v hc.1 hc.2) (h, c)).2.length = c.length
  | [], h, c => rfl
  | v :: rest, h, c => by
    rw [List.foldl_cons]
    have := foldl_forward_c_length th e w rest
      (lstmForward th e w v h c).1 (lstmForward th e w v h c).2
    rw [this, lstmForward_snd_length]

theorem foldl_forward_allNone (th e : ℚ → ℚ) (w : LSTMCellWeights) :
    ∀ (vs : List JSNum) (h c : List JSNum), allNone vs → vs ≠ [] →
      allNone (vs.foldl (fun hc v => lstmForward th e w v hc.1 hc.2) (h, c)).1 ∧
      (vs.foldl (fun hc v => lstmForward th e w v hc.1 hc.2) (h, c)).1.length = c.length
  | [], _, _, _, hne => absurd rfl hne
  | v :: rest, h, c, hvs, _ => by
    have hv : v = none := hvs v (by simp)
    subst hv
    rw [List.foldl_cons]
    cases rest with
    | nil =>
      exact ⟨(lstmForward_x_none th e w h c).1, lstmForward_fst_length th e w none h c⟩
    | cons r rest' =>
      have ih := foldl_forward_allNone th e w (r :: rest')
        (lstmForward th e w none h c).1 (lstmForward th e w none h c).2
        (fun x hx => hvs x (by simp [hx])) (by simp)
      exact ⟨ih.1, by rw [ih.2, lstmForward_snd_length]⟩

theorem foldl_predictStep_length (th e : ℚ → ℚ) (m : SimpleLSTM) :
    ∀ (is : List ℕ) (st : List JSNum × JSNum × List JSNum × List JSNum),
      ((is.foldl (lstmPredictStep th e m) st).1).length = st.1.length + is.length
  | [], st => rfl
  | i :: is, st => by
    rw [List.foldl_cons]
    have := foldl_predictStep_length th e m is (lstmPredictStep th e m st i)
    rw [this]
    simp only [lstmPredictStep, List.length_append, List.length_cons, List.length_nil]
    omega

theorem foldl_predictStep_allNone (th e : ℚ → ℚ) (m : SimpleLSTM) :
    ∀ (is : List ℕ) (st : List JSNum × JSNum × List JSNum × List JSNum),
      allNone st.1 → st.2.1 = none → 0 < st.2.2.2.length →
      allNone ((is.foldl (lstmPredictStep th e m) st).1)
  | [], _, hp, _, _ => hp
  | i :: is, st, hp, hin, hc => by
    rw [List.foldl_cons]
    have hx : st.2.1 = none := hin
    have hH : allNone (lstmForward th e m.cell st.2.1 st.2.2.1 st.2.2.2).1 := by
      rw [hx]; exact (lstmForward_x_none th e m.cell st.2.2.1 st.2.2.2).1
    have hHne : (lstmForward th e m.cell st.2.1 st.2.2.1 st.2.2.2).1 ≠ [] := by
      rw [← List.length_pos, lstmForward_fst_length]
      exact hc
    have hpred : dotHS (lstmForward th e m.cell st.2.1 st.2.2.1 st.2.2.2).1 m.outputWeights
        = none := dotHS_none hH hHne
    apply foldl_predictStep_allNone th e m is
    · simp only [lstmPredictStep, hpred]
      intro x hx'
      rcases List.mem_append.1 hx' with hmem | hmem
      · exact hp x hmem
      · simpa using hmem
    · simp only [lstmPredictStep, hpred]
    · simp only [lstmPredictStep, lstmForward_snd_length]
      exact hc

theorem predict_length (th e : ℚ → ℚ) (m : SimpleLSTM) (lv : List JSNum) (steps : ℕ) :
    (SimpleLSTM.predict th e m lv steps).length = steps := by
  unfold SimpleLSTM.predict
  rw [foldl_predictStep_length]
  simp

theorem predict_allNone (th e : ℚ → ℚ) (m : SimpleLSTM) (lv : List JSNum) (steps : ℕ)
    (hlv : allNone lv) (hne : lv ≠ []) (hk : 0 < m.hiddenSize) :
    allNone (SimpleLSTM.predict th e m lv steps) := by
  unfold SimpleLSTM.predict
  have hwarm := foldl_forward_allNone th e m.cell lv
    (List.replicate m.hiddenSize (some 0)) (List.replicate m.hiddenSize (some 0)) hlv hne
  have hclen := foldl_forward_c_length th e m.cell lv
    (List.replicate m.hiddenSize (some 0)) (List.replicate m.hiddenSize (some 0))
  apply foldl_predictStep_allNone
  · intro x hx
    simp at hx
  · exact getD_none_of_allNone hlv _
  · simpa [hclen] using hk

theorem denormalize_none (mn mx : ℚ) : denormalize none mn mx = none := rfl

theorem lstmDayPrediction_price_none (e : ℚ → ℚ) (today : ℤ) (lastPrice stdDev : ℚ)
    (d i : ℕ) : (lstmDayPrediction e today lastPrice stdDev d i none).predicted_price = none :=
  rfl

/-- On a constant price series the normalizer produces `NaN` for every
point, and the recurrent forecaster's predicted prices are therefore all
non-finite. -/
theorem lstmPredictions_const_price_none (sqrt th e : ℚ → ℚ) (cellW : LSTMCellWeights)
    (ow0 : List JSNum) (today : ℤ) {prices : List ℚ} {a : ℚ} (hconst : ∀ x ∈ prices, x = a)
    (hlen : 60 ≤ prices.length) (d : ℕ) :
    ∀ pred ∈ lstmPredictions sqrt th e cellW ow0 today prices d,
      pred.predicted_price = none := by
  intro pred hpred
  have hne : prices ≠ [] := by rintro rfl; simp at hlen
  have hnorm : allNone (normalizeData prices).normalized := normalizeData_const_allNone hne hconst
  simp only [lstmPredictions] at hpred
  obtain ⟨i, _, rfl⟩ := List.mem_map.1 hpred
  have hlv : allNone ((normalizeData prices).normalized.drop
      ((normalizeData prices).normalized.length - min 60 prices.length)) :=
    fun x hx => hnorm x (List.drop_subset _ _ hx)
  have hlvne : (normalizeData prices).normalized.drop
      ((normalizeData prices).normalized.length - min 60 prices.length) ≠ [] := by
    rw [← List.length_pos, List.length_drop, normalizeData_length]
    omega
  have hpredall := predict_allNone th e
    (SimpleLSTM.train th e ⟨cellW, 50, ow0⟩ (normalizeData prices).normalized 50)
    ((normalizeData prices).normalized.drop
      ((normalizeData prices).normalized.length - min 60 prices.length)) d hlv hlvne
    (by simp [SimpleLSTM.train])
  have hactual : allNone (((SimpleLSTM.train th e ⟨cellW, 50, ow0⟩
        (normalizeData prices).normalized 50).predict th e
      ((normalizeData prices).normalized.drop
        ((normalizeData prices).normalized.length - min 60 prices.length)) d).map
      (fun v => denormalize v (normalizeData prices).min (normalizeData prices).max)) := by
    intro x hx
    obtain ⟨y, hy, rfl⟩ := List.mem_map.1 hx
    rw [hpredall y hy, denormalize_none]
  rw [getD_none_of_allNone hactual, lstmDayPrediction_price_none]

/-! ### Finiteness propagation through the recurrent cell

The constructor always produces four `hidden × (1 + hidden)` matrices of
finite numbers; `cellShape` records the shape (row count and a lower
bound on row lengths) that the index accesses rely on. -/

/-- The weight matrices have `k` rows of width at least `k + 1`. -/
def cellShape (w : LSTMCellWeights) (k : ℕ) : Prop :=
  (w.Wf.length = k ∧ ∀ r ∈ w.Wf, k + 1 ≤ r.length) ∧
  (w.Wi.length = k ∧ ∀ r ∈ w.Wi, k + 1 ≤ r.length) ∧
  (w.Wc.length = k ∧ ∀ r ∈ w.Wc, k + 1 ≤ r.length) ∧
  (w.Wo.length = k ∧ ∀ r ∈ w.Wo, k + 1 ≤ r.length)

theorem good_range_map {k : ℕ} {F : ℕ → JSNum} (hF : ∀ i < k, (F i).isSome) :
    good ((List.range k).map F) k := by
  refine ⟨by simp, ?_⟩
  intro x hx
  obtain ⟨i, hi, rfl⟩ := List.mem_map.1 hx
  exact hF i (List.mem_range.1 hi)

theorem good_matMul_sigmoid {e : ℚ → ℚ} (he : ∀ t, 0 < e t) {W : List (List ℚ)} {k : ℕ}
    {input : List JSNum} (hW : W.length = k) (hrows : ∀ r ∈ W, k + 1 ≤ r.length)
    (hin : allSome input) (hlen : input.length = k + 1) :
    good ((matMul W input).map (sigmoid e)) k := by
  refine ⟨by simp [matMul, hW], ?_⟩
  intro y hy
  obtain ⟨z, hz, rfl⟩ := List.mem_map.1 hy
  obtain ⟨row, hrow, rfl⟩ := List.mem_map.1 hz
  exact sigmoid_isSome he (dotRow_isSome row _ (by rw [hlen]; exact hrows row hrow) hin)

theorem good_matMul_tanh (th : ℚ → ℚ) {W : List (List ℚ)} {k : ℕ}
    {input : List JSNum} (hW : W.length = k) (hrows : ∀ r ∈ W, k + 1 ≤ r.length)
    (hin : allSome input) (hlen : input.length = k + 1) :
    good ((matMul W input).map (tanhJS th)) k := by
  refine ⟨by simp [matMul, hW], ?_⟩
  intro y hy
  obtain ⟨z, hz, rfl⟩ := List.mem_map.1 hy
  obtain ⟨row, hrow, rfl⟩ := List.mem_map.1 hz
  exact tanhJS_isSome th (dotRow_isSome row _ (by rw [hlen]; exact hrows row hrow) hin)

theorem lstmForward_good (th : ℚ → ℚ) {e : ℚ → ℚ} (he : ∀ t, 0 < e t) {w : LSTMCellWeights}
    {k : ℕ} (hw : cellShape w k) {x : JSNum} {h c : List JSNum} (hx : x.isSome)
    (hh : good h k) (hc : good c k) :
    good (lstmForward th e w x h c).1 k ∧ good (lstmForward th e w x h c).2 k := by
  have hcomb : allSome (x :: h) := by
    intro y hy
    rcases List.mem_cons.1 hy with rfl | hm
    · exact hx
    · exact hh.2 y hm
  have hcomblen : (x :: h).length = k + 1 := by simp [hh.1]
  have hft := good_matMul_sigmoid he hw.1.1 hw.1.2 hcomb hcomblen
  have hit := good_matMul_sigmoid he hw.2.1.1 hw.2.1.2 hcomb hcomblen
  have hct := good_matMul_tanh th hw.2.2.1.1 hw.2.2.1.2 hcomb hcomblen
  have hot := good_matMul_sigmoid he hw.2.2.2.1 hw.2.2.2.2 hcomb hcomblen
  have hnewC : good ((List.range k).map (fun i =>
      jsAdd (jsMul (((matMul w.Wf (x :: h)).map (sigmoid e)).getD i none) (c.getD i none))
        (jsMul (((matMul w.Wi (x :: h)).map (sigmoid e)).getD i none)
          (((matMul w.Wc (x :: h)).map (tanhJS th)).getD i none)))) k := by
    apply good_range_map
    intro i hi
    exact jsAdd_isSome
      (jsMul_isSome (getD_isSome_of_good hft hi) (getD_isSome_of_good hc hi))
      (jsMul_isSome (getD_isSome_of_good hit hi) (getD_isSome_of_good hct hi))
  constructor
  · simp only [lstmForward, List.length_map, List.length_range, hc.1]
    apply good_range_map
    intro i hi
    exact jsMul_isSome (getD_isSome_of_good hot hi)
      (tanhJS_isSome th (getD_isSome_of_good (hc.1 ▸ hnewC) hi))
  · simpa only [lstmForward, hc.1] using hc.1 ▸ hnewC

/-! ### Finiteness propagation through training and prediction -/

theorem lstmTrainStep_good (th : ℚ → ℚ) {e : ℚ → ℚ} (he : ∀ t, 0 < e t)
    {cell : LSTMCellWeights} {k : ℕ} (hw : cellShape cell k)
    {st : List JSNum × List JSNum × List JSNum} {xy : JSNum × JSNum}
    (how : good st.1 k) (hh : good st.2.1 k) (hc : good st.2.2 k)
    (hx : xy.1.isSome) (hy : xy.2.isSome) :
    good (lstmTrainStep th e cell k st xy).1 k ∧
    good (lstmTrainStep th e cell k st xy).2.1 k ∧
    good (lstmTrainStep th e cell k st xy).2.2 k := by
  have hr := lstmForward_good th he hw hx hh hc
  have hpred : (dotHS (lstmForward th e cell xy.1 st.2.1 st.2.2).1 st.1).isSome :=
    dotHS_isSome hr.1 how
  have herr : (jsSub xy.2 (dotHS (lstmForward th e cell xy.1 st.2.1 st.2.2).1 st.1)).isSome :=
    jsSub_isSome hy hpred
  refine ⟨?_, hr.1, hr.2⟩
  simp only [lstmTrainStep]
  apply good_range_map
  intro j hj
  exact jsAdd_isSome (getD_isSome_of_good how hj)
    (jsMul_isSome (jsMul_isSome rfl herr) (getD_isSome_of_good hr.1 hj))

theorem foldl_trainStep_good (th : ℚ → ℚ) {e : ℚ → ℚ} (he : ∀ t, 0 < e t)
    {cell : LSTMCellWeights} {k : ℕ} (hw : cellShape cell k) :
    ∀ (ps : List (JSNum × JSNum)) (st : List JSNum × List JSNum × List JSNum),
      (∀ p ∈ ps, p.1.isSome ∧ p.2.isSome) → good st.1 k → good st.2.1 k → good st.2.2 k →
      good ((ps.foldl (lstmTrainStep th e cell k) st).1) k
  | [], _, _, how, _, _ => how
  | p :: ps, st, hps, how, hh, hc => by
    rw [List.foldl_cons]
    have hstep := lstmTrainStep_good th he hw how hh hc (hps p (by simp)).1 (hps p (by simp)).2
    exact foldl_trainStep_good th he hw ps _ (fun q hq => hps q (by simp [hq]))
      hstep.1 hstep.2.1 hstep.2.2

theorem lstmTrainEpoch_good (th : ℚ → ℚ) {e : ℚ → ℚ} (he : ∀ t, 0 < e t)
    {cell : LSTMCellWeights} {k : ℕ} (hw : cellShape cell k) {data : List JSNum}
    (hdata : allSome data) {ow : List JSNum} (how : good ow k) :
    good (lstmTrainEpoch th e cell k data ow) k := by
  unfold lstmTrainEpoch
  apply foldl_trainStep_good th he hw _ _ ?_ how (good_replicate k 0) (good_replicate k 0)
  intro p hp
  have := List.of_mem_zip hp
  exact ⟨hdata p.1 this.1, hdata p.2 (List.mem_of_mem_tail this.2)⟩

theorem train_good (th : ℚ → ℚ) {e : ℚ → ℚ} (he : ∀ t, 0 < e t) {m : SimpleLSTM}
    (hw : cellShape m.cell m.hiddenSize) {data : List JSNum} (hdata : allSome data)
    (how : good m.outputWeights m.hiddenSize) (epochs : ℕ) :
    good (SimpleLSTM.train th e m data epochs).outputWeights m.hiddenSize := by
  unfold SimpleLSTM.train
  have aux : ∀ (l : List ℕ) (ow : List JSNum), good ow m.hiddenSize →
      good (l.foldl (fun ow _ => lstmTrainEpoch th e m.cell m.hiddenSize data ow) ow)
        m.hiddenSize := by
    intro l
    induction l with
    | nil => exact fun _ h => h
    | cons i l ih =>
      intro ow how'
      rw [List.foldl_cons]
      exact ih _ (lstmTrainEpoch_good th he hw hdata how')
  exact aux _ _ how

theorem foldl_forward_good (th : ℚ → ℚ) {e : ℚ → ℚ} (he : ∀ t, 0 < e t)
    {w : LSTMCellWeights} {k : ℕ} (hw : cellShape w k) :
    ∀ (vs : List JSNum) (h c : List JSNum), allSome vs → good h k → good c k →
      good (vs.foldl (fun hc v => lstmForward th e w v hc.1 hc.2) (h, c)).1 k ∧
      good (vs.foldl (fun hc v => lstmForward th e w v hc.1 hc.2) (h, c)).2 k
  | [], h, c, _, hh, hc => ⟨hh, hc⟩
  | v :: vs, h, c, hvs, hh, hc => by
    rw [List.foldl_cons]
    have hstep := lstmForward_good th he hw (hvs v (by simp)) hh hc
    exact foldl_forward_good th he hw vs _ _ (fun y hy => hvs y (by simp [hy]))
      hstep.1 hstep.2

theorem foldl_predictStep_allSome (th : ℚ → ℚ) {e : ℚ → ℚ} (he : ∀ t, 0 < e t)
    {m : SimpleLSTM} (hw : cellShape m.cell m.hiddenSize)
    (how : good m.outputWeights m.hiddenSize) :
    ∀ (is : List ℕ) (st : List JSNum × JSNum × List JSNum × List JSNum),
      allSome st.1 → st.2.1.isSome → good st.2.2.1 m.hiddenSize → good st.2.2.2 m.hiddenSize →
      allSome ((is.foldl (lstmPredictStep th e m) st).1)
  | [], _, hp, _, _, _ => hp
  | i :: is, st, hp, hin, hh, hc => by
    rw [List.foldl_cons]
    have hr := lstmForward_good th he hw hin hh hc
    have hpred : (dotHS (lstmForward th e m.cell st.2.1 st.2.2.1 st.2.2.2).1
        m.outputWeights).isSome := dotHS_isSome hr.1 how
    apply foldl_predictStep_allSome th he hw how is
    · simp only [lstmPredictStep]
      intro x hx
      rcases List.mem_append.1 hx with hmem | hmem
      · exact hp x hmem
      · rw [List.mem_singleton.1 hmem]
        exact hpred
    · exact hpred
    · exact hr.1
    · exact hr.2

theorem predict_allSome (th : ℚ → ℚ) {e : ℚ → ℚ} (he : ∀ t, 0 < e t) {m : SimpleLSTM}
    (hw : cellShape m.cell m.hiddenSize) (how : good m.outputWeights m.hiddenSize)
    {lv : List JSNum} (hlv : allSome lv) (hne : lv ≠ []) (steps : ℕ) :
    allSome (SimpleLSTM.predict th e m lv steps) := by
  unfold SimpleLSTM.predict
  have hwarm := foldl_forward_good th he hw lv
    (List.replicate m.hiddenSize (some 0)) (List.replicate m.hiddenSize (some 0)) hlv
    (good_replicate _ 0) (good_replicate _ 0)
  apply foldl_predictStep_allSome th he hw how
  · intro x hx
    simp at hx
  · exact getD_isSome_of_good ⟨rfl, hlv⟩ (by have := List.length_pos.2 hne; omega)
  · exact hwarm.1
  · exact hwarm.2

theorem normalizeData_allSome {l : List ℚ} (hrange : listMax l - listMin l ≠ 0) :
    allSome (normalizeData l).normalized := by
  intro y hy
  simp only [normalizeData] at hy
  obtain ⟨v, _, rfl⟩ := List.mem_map.1 hy
  simp [jsDiv, hrange]

/-! ### Per-day prediction bounds -/

theorem toOption_getD_ok {ε α : Type} (x y : α) :
    ((Except.ok x : Except ε α).toOption).getD y = x := rfl

theorem jsMax_some (a b : ℚ) : jsMax (some a) (some b) = some (max a b) := rfl

theorem jsMin_some (a b : ℚ) : jsMin (some a) (some b) = some (min a b) := rfl

theorem denormalize_some (u mn mx : ℚ) : denormalize (some u) mn mx = some (u * (mx - mn) + mn) :=
  rfl

theorem lrPredictions_length (sqrt : ℚ → ℚ) (today : ℤ) (prices : List ℚ) (d : ℕ) :
    (lrPredictions sqrt today prices d).length = d := by
  simp [lrPredictions]

theorem lstmPredictions_length (sqrt th e : ℚ → ℚ) (cellW : LSTMCellWeights)
    (ow0 : List JSNum) (today : ℤ) (prices : List ℚ) (d : ℕ) :
    (lstmPredictions sqrt th e cellW ow0 today prices d).length = d := by
  simp [lstmPredictions]

theorem lrVariance_nonneg (recent : List ℚ) : 0 ≤ lrVariance recent := by
  unfold lrVariance
  apply div_nonneg _ (Nat.cast_nonneg _)
  apply List.sum_nonneg
  intro x hx
  obtain ⟨p, _, rfl⟩ := List.mem_map.1 hx
  positivity

theorem varianceList_nonneg (l : List ℚ) : 0 ≤ varianceList l := by
  unfold varianceList
  apply div_nonneg _ (Nat.cast_nonneg _)
  apply List.sum_nonneg
  intro x hx
  obtain ⟨p, _, rfl⟩ := List.mem_map.1 hx
  positivity

theorem lrConfidenceRange_nonneg {sd : ℚ} (hsd : 0 ≤ sd) (d i : ℕ) :
    0 ≤ lrConfidenceRange sd d i := by
  unfold lrConfidenceRange
  have hdiv : (0 : ℚ) ≤ (i : ℚ) / (d : ℚ) := div_nonneg (Nat.cast_nonneg i) (Nat.cast_nonneg d)
  have h1 : (0 : ℚ) ≤ 1 + (i : ℚ) / (d : ℚ) * (1 / 2) := by linarith
  have h196 : (0 : ℚ) ≤ 196 / 100 := by norm_num
  exact mul_nonneg (mul_nonneg hsd h1) h196

theorem getD_last_nonneg {prices : List ℚ} (hpos : ∀ p ∈ prices, 0 ≤ p) :
    0 ≤ prices.getD (prices.length - 1) 0 := by
  cases prices with
  | nil => simp
  | cons x xs =>
    have hlt : (x :: xs).length - 1 < (x :: xs).length := by simp
    rw [List.getD_eq_getElem _ _ hlt]
    exact hpos _ (List.getElem_mem hlt)

/-- The trend forecaster's day-`i` prediction written out: the clamped
value `X`, the confidence half-width, and the clamp bounds. -/
theorem lrPrediction_shape (sqrt : ℚ → ℚ) (today : ℤ) (prices : List ℚ) (d i : ℕ) :
    ∃ X, lrPrediction sqrt today prices d i =
      ⟨today + (i : ℤ), some (max 0 X),
       some (max 0 (X - lrConfidenceRange (sqrt (lrVariance (lrRecent prices))) d i)),
       some (X + lrConfidenceRange (sqrt (lrVariance (lrRecent prices))) d i)⟩ ∧
      prices.getD (prices.length - 1) 0 -
        prices.getD (prices.length - 1) 0 * (15 / 100) ≤ X ∧
      (0 ≤ prices.getD (prices.length - 1) 0 →
        X ≤ prices.getD (prices.length - 1) 0 +
          prices.getD (prices.length - 1) 0 * (15 / 100)) := by
  refine ⟨max (prices.getD (prices.length - 1) 0 - prices.getD (prices.length - 1) 0 * (15 / 100))
    (min (prices.getD (prices.length - 1) 0 + prices.getD (prices.length - 1) 0 * (15 / 100))
      (lrSlope (lrRecent prices) * (((lrRecent prices).length : ℚ) + (i : ℚ)) +
        lrIntercept (lrRecent prices))), rfl, le_max_left _ _, ?_⟩
  intro hL
  exact max_le (by linarith) (min_le_left _ _)

/-- The recurrent forecaster's post-processing keeps a finite raw
prediction within ±20 % of the last price. -/
theorem lstmDayPrediction_price_bound (e : ℚ → ℚ) (today : ℤ) {L : ℚ} (sd : ℚ)
    (hL : 0 ≤ L) (d i : ℕ) {raw : JSNum} (hraw : raw.isSome) :
    ∃ p, (lstmDayPrediction e today L sd d i raw).predicted_price = some p ∧
      |p - L| ≤ (20 / 100) * L := by
  obtain ⟨r, rfl⟩ := Option.isSome_iff_exists.1 hraw
  refine ⟨max 0 (max (L - L * (20 / 100))
    (min (L + L * (20 / 100))
      (r * (7 / 10 + 3 / 10 * e (-(i : ℚ) / 10)) +
        L * (1 - (7 / 10 + 3 / 10 * e (-(i : ℚ) / 10)))))), rfl, ?_⟩
  generalize r * (7 / 10 + 3 / 10 * e (-(i : ℚ) / 10)) +
    L * (1 - (7 / 10 + 3 / 10 * e (-(i : ℚ) / 10))) = s
  have h1 : L - L * (20 / 100) ≤ max (L - L * (20 / 100)) (min (L + L * (20 / 100)) s) :=
    le_max_left _ _
  have h2 : max (L - L * (20 / 100)) (min (L + L * (20 / 100)) s) ≤ L + L * (20 / 100) :=
    max_le (by linarith) (min_le_left _ _)
  have h0 : 0 ≤ max (L - L * (20 / 100)) (min (L + L * (20 / 100)) s) := by linarith
  rw [max_eq_right h0, abs_le]
  constructor <;> linarith

/-! ## Claim C1 -/

/-- Claim C1: for every series of length `n ≥ 10` with all prices `≥ 0`
and every `days` in `[1, 90]`, `predictLinearRegression` returns exactly
`days` predictions whose target dates are strictly increasing (day `i`
has date `today + i`), and every prediction has `predicted_price ≥ 0`
and `confidence_lower ≤ predicted_price ≤ confidence_upper`. -/
theorem trend_forecaster_contract (sqrt : ℚ → ℚ) (hsqrt : ∀ x, 0 ≤ x → 0 ≤ sqrt x)
    (today : ℤ) (prices : List ℚ) (hlen : 10 ≤ prices.length)
    (hpos : ∀ p ∈ prices, 0 ≤ p) (d : ℕ) (hd1 : 1 ≤ d) (hd90 : d ≤ 90) :
    ∃ preds, predictLinearRegression sqrt today prices d = .ok preds ∧
      preds.length = d ∧
      (∀ j (hj : j < preds.length), (preds.get ⟨j, hj⟩).date = today + j + 1) ∧
      (∀ j k (hj : j < preds.length) (hk : k < preds.length), j < k →
        (preds.get ⟨j, hj⟩).date < (preds.get ⟨k, hk⟩).date) ∧
      ∀ pred ∈ preds, ∃ p lo hi, pred.predicted_price = some p ∧
        pred.confidence_lower = some lo ∧ pred.confidence_upper = some hi ∧
        0 ≤ p ∧ lo ≤ p ∧ p ≤ hi := by
  have hdate : ∀ j (hj : j < (lrPredictions sqrt today prices d).length),
      ((lrPredictions sqrt today prices d).get ⟨j, hj⟩).date = today + j + 1 := by
    intro j hj
    have hj' : j < d := by simpa [lrPredictions] using hj
    rw [List.get_eq_getElem]
    simp only [lrPredictions, List.getElem_map, List.getElem_range'_1]
    obtain ⟨X, heq, -, -⟩ := lrPrediction_shape sqrt today prices d (1 + j)
    rw [heq]
    push_cast
    ring
  refine ⟨lrPredictions sqrt today prices d, ?_, lrPredictions_length .., hdate, ?_, ?_⟩
  · unfold predictLinearRegression
    rw [if_neg (by omega)]
  · intro j k hj hk hjk
    rw [hdate j hj, hdate k hk]
    omega
  · intro pred hpred
    simp only [lrPredictions] at hpred
    obtain ⟨i, _, rfl⟩ := List.mem_map.1 hpred
    obtain ⟨X, heq, hXlo, hXhi⟩ := lrPrediction_shape sqrt today prices d i
    have hL : 0 ≤ prices.getD (prices.length - 1) 0 := getD_last_nonneg hpos
    have hR : 0 ≤ lrConfidenceRange (sqrt (lrVariance (lrRecent prices))) d i :=
      lrConfidenceRange_nonneg (hsqrt _ (lrVariance_nonneg _)) d i
    have hX0 : 0 ≤ X := by
      have : 0 ≤ prices.getD (prices.length - 1) 0 -
          prices.getD (prices.length - 1) 0 * (15 / 100) := by linarith
      linarith
    rw [heq]
    refine ⟨max 0 X, max 0 (X - lrConfidenceRange (sqrt (lrVariance (lrRecent prices))) d i),
      X + lrConfidenceRange (sqrt (lrVariance (lrRecent prices))) d i,
      rfl, rfl, rfl, le_max_left 0 X, ?_, ?_⟩
    · exact max_le_max (le_refl 0) (by linarith)
    · rw [max_eq_right hX0]
      linarith

/-- Witness for C1 at a concrete ten-point series with `days = 1`. -/
theorem trend_forecaster_contract_witness :
    ((10 ≤ ([1, 2, 3, 4, 5, 6, 7, 8, 9, 10] : List ℚ).length) ∧
      (∀ p ∈ ([1, 2, 3, 4, 5, 6, 7, 8, 9, 10] : List ℚ), 0 ≤ p)) ∧
    ∃ preds, predictLinearRegression (fun _ => 0) 0 [1, 2, 3, 4, 5, 6, 7, 8, 9, 10] 1 =
        .ok preds ∧
      preds.length = 1 ∧
      (∀ j (hj : j < preds.length), (preds.get ⟨j, hj⟩).date = 0 + j + 1) ∧
      (∀ j k (hj : j < preds.length) (hk : k < preds.length), j < k →
        (preds.get ⟨j, hj⟩).date < (preds.get ⟨k, hk⟩).date) ∧
      ∀ pred ∈ preds, ∃ p lo hi, pred.predicted_price = some p ∧
        pred.confidence_lower = some lo ∧ pred.confidence_upper = some hi ∧
        0 ≤ p ∧ lo ≤ p ∧ p ≤ hi :=
  ⟨⟨by decide, by decide⟩,
   trend_forecaster_contract (fun _ => 0) (fun _ _ => le_refl 0) 0 _ (by decide) (by decide)
     1 (by decide) (by decide)⟩

/-! ## Claim C6 -/

/-- Claim C6 (amended): for every valid input with non-negative prices,
every `predicted_price` of the trend forecaster lies within 15 % of the
last historical price; and, provided the series is not constant (the
degenerate normalization range the spec requires callers to guard
against), every `predicted_price` of the recurrent forecaster lies
within 20 % of the last historical price. -/
theorem forecast_deviation_bounds (sqrt th : ℚ → ℚ) {e : ℚ → ℚ} (he : ∀ t, 0 < e t)
    {cellW : LSTMCellWeights} (hw : cellShape cellW 50) {ow0 : List JSNum}
    (how : good ow0 50) (today : ℤ) (prices : List ℚ) (hpos : ∀ p ∈ prices, 0 ≤ p)
    (d : ℕ) :
    (∀ preds, predictLinearRegression sqrt today prices d = .ok preds →
      ∀ pred ∈ preds, ∃ p, pred.predicted_price = some p ∧
        |p - prices.getD (prices.length - 1) 0| ≤
          (15 / 100) * prices.getD (prices.length - 1) 0) ∧
    (∀ a b, a ∈ prices → b ∈ prices → a ≠ b →
      ∀ preds, predictLSTM sqrt th e cellW ow0 today prices d = .ok preds →
      ∀ pred ∈ preds, ∃ p, pred.predicted_price = some p ∧
        |p - prices.getD (prices.length - 1) 0| ≤
          (20 / 100) * prices.getD (prices.length - 1) 0) := by
  have hL : 0 ≤ prices.getD (prices.length - 1) 0 := getD_last_nonneg hpos
  constructor
  · intro preds hpreds
    unfold predictLinearRegression at hpreds
    split_ifs at hpreds with hlen
    cases hpreds
    intro pred hpred
    simp only [lrPredictions] at hpred
    obtain ⟨i, _, rfl⟩ := List.mem_map.1 hpred
    obtain ⟨X, heq, hXlo, hXhi⟩ := lrPrediction_shape sqrt today prices d i
    have hXhi' := hXhi hL
    have hX0 : 0 ≤ X := by
      have : 0 ≤ prices.getD (prices.length - 1) 0 -
          prices.getD (prices.length - 1) 0 * (15 / 100) := by linarith
      linarith
    rw [heq]
    refine ⟨max 0 X, rfl, ?_⟩
    rw [max_eq_right hX0, abs_le]
    constructor <;> linarith
  · intro a b ha hb hab preds hpreds
    unfold predictLSTM at hpreds
    split_ifs at hpreds with hlen
    cases hpreds
    intro pred hpred
    have hrange : listMax prices - listMin prices ≠ 0 := range_ne_zero_of_two_mem ha hb hab
    have hnorm : allSome (normalizeData prices).normalized := normalizeData_allSome hrange
    have hlen60 : 60 ≤ prices.length := by omega
    simp only [lstmPredictions] at hpred
    obtain ⟨i, hi, rfl⟩ := List.mem_map.1 hpred
    have hi' : i < d := List.mem_range.1 hi
    have hlv : allSome ((normalizeData prices).normalized.drop
        ((normalizeData prices).normalized.length - min 60 prices.length)) :=
      fun x hx => hnorm x (List.drop_subset _ _ hx)
    have hlvne : (normalizeData prices).normalized.drop
        ((normalizeData prices).normalized.length - min 60 prices.length) ≠ [] := by
      rw [← List.length_pos, List.length_drop, normalizeData_length]
      omega
    have htrain : good (SimpleLSTM.train th e ⟨cellW, 50, ow0⟩
        (normalizeData prices).normalized 50).outputWeights 50 :=
      train_good th he (m := ⟨cellW, 50, ow0⟩) hw hnorm how 50
    have hps := predict_allSome th he
      (m := SimpleLSTM.train th e ⟨cellW, 50, ow0⟩ (normalizeData prices).normalized 50)
      hw htrain hlv hlvne d
    have hpl := predict_length th e
      (SimpleLSTM.train th e ⟨cellW, 50, ow0⟩ (normalizeData prices).normalized 50)
      ((normalizeData prices).normalized.drop
        ((normalizeData prices).normalized.length - min 60 prices.length)) d
    have hactual : good (((SimpleLSTM.train th e ⟨cellW, 50, ow0⟩
          (normalizeData prices).normalized 50).predict th e
        ((normalizeData prices).normalized.drop
          ((normalizeData prices).normalized.length - min 60 prices.length)) d).map
        (fun v => denormalize v (normalizeData prices).min (normalizeData prices).max)) d := by
      refine ⟨by rw [List.length_map, hpl], ?_⟩
      intro x hx
      obtain ⟨y, hy, rfl⟩ := List.mem_map.1 hx
      obtain ⟨u, hu⟩ := Option.isSome_iff_exists.1 (hps y hy)
      rw [hu, denormalize_some]
      rfl
    exact lstmDayPrediction_price_bound e today _ hL d i (getD_isSome_of_good hactual hi')

/-- Witness for C6 at a concrete non-constant sixty-point series. -/
theorem forecast_deviation_bounds_witness :
    ((∀ p ∈ ((1 : ℚ) :: List.replicate 59 (2 : ℚ)), 0 ≤ p) ∧
      cellShape ⟨List.replicate 50 (List.replicate 51 0), List.replicate 50 (List.replicate 51 0),
        List.replicate 50 (List.replicate 51 0), List.replicate 50 (List.replicate 51 0)⟩ 50 ∧
      good (List.replicate 50 (some 0)) 50 ∧ (∀ t : ℚ, 0 < (1 : ℚ))) ∧
    ((∀ preds, predictLinearRegression (fun _ => 0) 0
        ((1 : ℚ) :: List.replicate 59 (2 : ℚ)) 5 = .ok preds →
      ∀ pred ∈ preds, ∃ p, pred.predicted_price = some p ∧
        |p - ((1 : ℚ) :: List.replicate 59 (2 : ℚ)).getD
            (((1 : ℚ) :: List.replicate 59 (2 : ℚ)).length - 1) 0| ≤
          (15 / 100) * ((1 : ℚ) :: List.replicate 59 (2 : ℚ)).getD
            (((1 : ℚ) :: List.replicate 59 (2 : ℚ)).length - 1) 0) ∧
    (∀ a b, a ∈ ((1 : ℚ) :: List.replicate 59 (2 : ℚ)) →
        b ∈ ((1 : ℚ) :: List.replicate 59 (2 : ℚ)) → a ≠ b →
      ∀ preds, predictLSTM (fun _ => 0) (fun x => x) (fun _ => 1)
        ⟨List.replicate 50 (List.replicate 51 0), List.replicate 50 (List.replicate 51 0),
         List.replicate 50 (List.replicate 51 0), List.replicate 50 (List.replicate 51 0)⟩
        (List.replicate 50 (some 0)) 0 ((1 : ℚ) :: List.replicate 59 (2 : ℚ)) 5 = .ok preds →
      ∀ pred ∈ preds, ∃ p, pred.predicted_price = some p ∧
        |p - ((1 : ℚ) :: List.replicate 59 (2 : ℚ)).getD
            (((1 : ℚ) :: List.replicate 59 (2 : ℚ)).length - 1) 0| ≤
          (20 / 100) * ((1 : ℚ) :: List.replicate 59 (2 : ℚ)).getD
            (((1 : ℚ) :: List.replicate 59 (2 : ℚ)).length - 1) 0)) := by
  have hpos : ∀ p ∈ ((1 : ℚ) :: List.replicate 59 (2 : ℚ)), 0 ≤ p := by
    intro p hp
    rcases List.mem_cons.1 hp with rfl | hm
    · norm_num
    · rw [List.eq_of_mem_replicate hm]; norm_num
  have hw : cellShape ⟨List.replicate 50 (List.replicate 51 0),
      List.replicate 50 (List.replicate 51 0), List.replicate 50 (List.replicate 51 0),
      List.replicate 50 (List.replicate 51 0)⟩ 50 := by
    refine ⟨⟨by simp, ?_⟩, ⟨by simp, ?_⟩, ⟨by simp, ?_⟩, ⟨by simp, ?_⟩⟩ <;>
      · intro r hr
        rw [List.eq_of_mem_replicate hr]
        simp
  exact ⟨⟨hpos, hw, ⟨by simp, allSome_replicate 50 0⟩, fun _ => one_pos⟩,
    forecast_deviation_bounds (fun _ => 0) (fun x => x) (fun _ => one_pos) hw
      ⟨by simp, allSome_replicate 50 0⟩ 0 _ hpos 5⟩

/-- Claim C6 counterexample: on a constant sixty-point series (all valid,
non-negative prices, length ≥ 60) the recurrent forecaster's sole
predicted price for `days = 1` is `NaN` (non-finite), hence not within
20 % of the last price. -/
theorem recurrent_deviation_counterexample :
    ((predictLSTM (fun _ => 0) (fun x => x) (fun _ => 1)
        ⟨List.replicate 50 (List.replicate 51 0), List.replicate 50 (List.replicate 51 0),
         List.replicate 50 (List.replicate 51 0), List.replicate 50 (List.replicate 51 0)⟩
        (List.replicate 50 (some 0)) 0 (List.replicate 60 (100 : ℚ)) 1).toOption.getD
      []).map Prediction.predicted_price = [none] := by
  have hok : predictLSTM (fun _ => 0) (fun x => x) (fun _ => 1)
      ⟨List.replicate 50 (List.replicate 51 0), List.replicate 50 (List.replicate 51 0),
       List.replicate 50 (List.replicate 51 0), List.replicate 50 (List.replicate 51 0)⟩
      (List.replicate 50 (some 0)) 0 (List.replicate 60 (100 : ℚ)) 1 =
      .ok (lstmPredictions (fun _ => 0) (fun x => x) (fun _ => 1)
        ⟨List.replicate 50 (List.replicate 51 0), List.replicate 50 (List.replicate 51 0),
         List.replicate 50 (List.replicate 51 0), List.replicate 50 (List.replicate 51 0)⟩
        (List.replicate 50 (some 0)) 0 (List.replicate 60 (100 : ℚ)) 1) := by
    have hcond : ¬ (List.replicate 60 (100 : ℚ)).length < 60 := by simp
    unfold predictLSTM
    rw [if_neg hcond]
  rw [hok, toOption_getD_ok]
  have hall : ∀ pred ∈ lstmPredictions (fun _ => 0) (fun x => x) (fun _ => 1)
      ⟨List.replicate 50 (List.replicate 51 0), List.replicate 50 (List.replicate 51 0),
       List.replicate 50 (List.replicate 51 0), List.replicate 50 (List.replicate 51 0)⟩
      (List.replicate 50 (some 0)) 0 (List.replicate 60 (100 : ℚ)) 1,
      pred.predicted_price = none :=
    lstmPredictions_const_price_none (fun _ => 0) (fun x => x) (fun _ => 1) _ _ 0
      (fun x hx => List.eq_of_mem_replicate hx) (by simp) 1
  have hlen := lstmPredictions_length (fun _ => 0) (fun x => x) (fun _ => 1)
    ⟨List.replicate 50 (List.replicate 51 0), List.replicate 50 (List.replicate 51 0),
     List.replicate 50 (List.replicate 51 0), List.replicate 50 (List.replicate 51 0)⟩
    (List.replicate 50 (some 0)) 0 (List.replicate 60 (100 : ℚ)) 1
  have hrep : ([none] : List JSNum) = List.replicate 1 none := rfl
  rw [hrep, List.eq_replicate_iff]
  refine ⟨by rw [List.length_map, hlen], ?_⟩
  intro y hy
  obtain ⟨pred, hpred, rfl⟩ := List.mem_map.1 hy
  exact hall pred hpred

/-! ## Claim C3 -/

/-- Claim C3 counterexample: `normalizeData` applied to the constant
series `[1, 1, 1]` returns `NaN` (a non-finite value, `none`) for every
point — not a defined neutral value such as `0.5`. -/
theorem normalize_constant_counterexample :
    (normalizeData [1, 1, 1]).normalized = [none, none, none] ∧
    ¬ ∀ y ∈ (normalizeData [1, 1, 1]).normalized, y.isSome := by
  have h : (normalizeData [1, 1, 1]).normalized = [none, none, none] := by
    norm_num [normalizeData, listMin, listMax, jsDiv]
  refine ⟨h, ?_⟩
  intro hcontra
  have hmem := hcontra none (by rw [h]; simp)
  simp at hmem

/-- Claim C3 (amended): `normalizeData` applied to a constant series
does not throw, but returns the undefined value `NaN` (`0/0`) for every
point rather than a defined neutral value. -/
theorem normalize_constant_series (l : List ℚ) (a : ℚ) (hne : l ≠ [])
    (hconst : ∀ x ∈ l, x = a) : ∀ y ∈ (normalizeData l).normalized, y = none :=
  normalizeData_const_allNone hne hconst

/-- Witness for the amended C3 at the constant series `[1, 1, 1]`. -/
theorem normalize_constant_series_witness :
    (([1, 1, 1] : List ℚ) ≠ [] ∧ ∀ x ∈ ([1, 1, 1] : List ℚ), x = 1) ∧
    ∀ y ∈ (normalizeData [1, 1, 1]).normalized, y = none :=
  ⟨⟨by decide, by decide⟩, normalize_constant_series [1, 1, 1] 1 (by decide) (by decide)⟩

/-! ## Claim C5 -/

/-- Claim C5: for every non-constant series and every index `i`,
`denormalize` applied to `normalize`'s output at `i` (with the same
bounds) recovers `series[i]` exactly — in exact rational arithmetic the
round trip is the identity. -/
theorem denormalize_normalize_roundtrip (l : List ℚ) (a b : ℚ) (ha : a ∈ l) (hb : b ∈ l)
    (hab : a ≠ b) (i : ℕ) (hi : i < l.length) :
    denormalize ((normalizeData l).normalized.getD i none) (normalizeData l).min
      (normalizeData l).max = some (l.getD i 0) := by
  have hrange : listMax l - listMin l ≠ 0 := range_ne_zero_of_two_mem ha hb hab
  have hmap : (normalizeData l).normalized.getD i none =
      jsDiv (some (l.getD i 0 - listMin l)) (some (listMax l - listMin l)) := by
    simp only [normalizeData]
    rw [List.getD_eq_getElem _ _ (by simpa using hi), List.getElem_map,
      List.getD_eq_getElem _ _ hi]
  have hmin : (normalizeData l).min = listMin l := rfl
  have hmax : (normalizeData l).max = listMax l := rfl
  rw [hmap, hmin, hmax]
  simp only [jsDiv, if_neg hrange, denormalize_some]
  rw [div_mul_cancel₀ _ hrange]
  congr 1
  ring

/-- Witness for C5 at the series `[1, 2]`, index `0`. -/
theorem denormalize_normalize_roundtrip_witness :
    ((1 : ℚ) ∈ ([1, 2] : List ℚ) ∧ (2 : ℚ) ∈ ([1, 2] : List ℚ) ∧ (1 : ℚ) ≠ 2 ∧
      0 < ([1, 2] : List ℚ).length) ∧
    denormalize ((normalizeData [1, 2]).normalized.getD 0 none) (normalizeData [1, 2]).min
      (normalizeData [1, 2]).max = some (([1, 2] : List ℚ).getD 0 0) :=
  ⟨⟨by simp, by simp, by norm_num, by simp⟩,
   denormalize_normalize_roundtrip [1, 2] 1 2 (by simp) (by simp) (by norm_num) 0 (by simp)⟩

/-! ## Claim C7 -/

/-- Claim C7: for fixed `stdDev > 0` and fixed `days = d`, the trend
model's confidence half-width `stdDev · (1 + (i/d)·0.5) · 1.96` is
non-decreasing as the horizon index increases from 1 to `d`. -/
theorem trend_confidence_monotone {stdDev : ℚ} (hs : 0 < stdDev) (d : ℕ) {i j : ℕ}
    (h1 : 1 ≤ i) (hij : i ≤ j) (hjd : j ≤ d) :
    lrConfidenceRange stdDev d i ≤ lrConfidenceRange stdDev d j := by
  unfold lrConfidenceRange
  have hdiv : (i : ℚ) / (d : ℚ) ≤ (j : ℚ) / (d : ℚ) := by
    rcases Nat.eq_zero_or_pos d with rfl | hd
    · simp
    · exact (div_le_div_iff_of_pos_right (by exact_mod_cast hd)).2 (by exact_mod_cast hij)
  nlinarith [mul_nonneg hs.le (sub_nonneg.2 hdiv)]

/-- Witness for C7 at `stdDev = 1`, `d = 5`, `i = 1`, `j = 2`. -/
theorem trend_confidence_monotone_witness :
    ((0 : ℚ) < 1 ∧ 1 ≤ 1 ∧ 1 ≤ 2 ∧ 2 ≤ 5) ∧
    lrConfidenceRange 1 5 1 ≤ lrConfidenceRange 1 5 2 :=
  ⟨⟨by norm_num, by norm_num, by norm_num, by norm_num⟩,
   trend_confidence_monotone (by norm_num) 5 (by norm_num) (by norm_num) (by norm_num)⟩

/-! ## Claim C8 -/

/-- Claim C8: for every series of length ≥ 10, the fitting window
`min(30, ⌊n/3⌋)` has size at least 3, and the OLS denominator
`window·Σx² − (Σx)²` over that window is non-zero, so the slope division
never divides by zero. -/
theorem trend_window_and_denominator_nonzero (prices : List ℚ) (h : 10 ≤ prices.length) :
    3 ≤ windowSize prices.length ∧ olsDenom (lrRecent prices).length ≠ 0 := by
  refine ⟨three_le_windowSize h, ?_⟩
  rw [lrRecent_length]
  exact ne_of_gt (olsDenom_pos (le_trans (by norm_num) (three_le_windowSize h)))

/-- Witness for C8 at a concrete ten-point series. -/
theorem trend_window_and_denominator_nonzero_witness :
    (10 ≤ ([1, 2, 3, 4, 5, 6, 7, 8, 9, 10] : List ℚ).length) ∧
    (3 ≤ windowSize ([1, 2, 3, 4, 5, 6, 7, 8, 9, 10] : List ℚ).length ∧
      olsDenom (lrRecent ([1, 2, 3, 4, 5, 6, 7, 8, 9, 10] : List ℚ)).length ≠ 0) :=
  ⟨by decide, trend_window_and_denominator_nonzero [1, 2, 3, 4, 5, 6, 7, 8, 9, 10] (by decide)⟩

/-! ## Claim C9 -/

/-- Claim C9: `SimpleLSTM.train` modifies only the linear readout
weights — the four gate weight matrices `Wf`, `Wi`, `Wc`, `Wo` (and the
hidden size) are unchanged after training — and each inner training step
updates the readout weights by exactly
`ow[j] + 0.001 · error · h[j]` with `error = y − ⟨h, ow⟩`. -/
theorem train_updates_readout_only (th e : ℚ → ℚ) (m : SimpleLSTM) (data : List JSNum)
    (epochs : ℕ) :
    (SimpleLSTM.train th e m data epochs).cell.Wf = m.cell.Wf ∧
    (SimpleLSTM.train th e m data epochs).cell.Wi = m.cell.Wi ∧
    (SimpleLSTM.train th e m data epochs).cell.Wc = m.cell.Wc ∧
    (SimpleLSTM.train th e m data epochs).cell.Wo = m.cell.Wo ∧
    (SimpleLSTM.train th e m data epochs).hiddenSize = m.hiddenSize ∧
    ∀ (cell : LSTMCellWeights) (k : ℕ) (ow h c : List JSNum) (x y : JSNum),
      lstmTrainStep th e cell k (ow, h, c) (x, y) =
        ((List.range k).map (fun j =>
          jsAdd (ow.getD j none)
            (jsMul (jsMul (some (1 / 1000))
              (jsSub y (dotHS (lstmForward th e cell x h c).1 ow)))
              ((lstmForward th e cell x h c).1.getD j none))),
         (lstmForward th e cell x h c).1, (lstmForward th e cell x h c).2) :=
  ⟨rfl, rfl, rfl, rfl, rfl, fun _ _ _ _ _ _ _ => rfl⟩

/-! ## Claim C4 -/

/-- Claim C4: for every request with a valid ticker whose (numeric)
`days` parameter is outside `[1, 90]`, the orchestrator answers 400
`"Days must be between 1 and 90"`; the response is the same for every
possible database result and forecaster parameter, i.e. no model is
invoked. -/
theorem invalid_days_rejected (sqrt th e : ℚ → ℚ) (cellW : LSTMCellWeights)
    (ow0 : List JSNum) (today : ℤ) (t : String) (ht : t ≠ "") (d : ℤ)
    (hd : d < 1 ∨ 90 < d) (dbResult : Except String (List ℚ)) :
    handleRequest sqrt th e cellW ow0 today (some t) (some d) dbResult =
      ⟨400, .failure "Days must be between 1 and 90"⟩ := by
  simp only [handleRequest, Option.map_some', Option.getD_some]
  rw [if_neg ht, if_pos hd]

/-- Witness for C4 at `days = 0`. -/
theorem invalid_days_rejected_witness :
    ("AAPL" ≠ "" ∧ ((0 : ℤ) < 1 ∨ (90 : ℤ) < 0)) ∧
    handleRequest (fun _ => 0) (fun x => x) (fun _ => 1) ⟨[], [], [], []⟩ [] 0
      (some "AAPL") (some 0) (.ok [100]) =
      ⟨400, .failure "Days must be between 1 and 90"⟩ :=
  ⟨⟨by decide, by norm_num⟩,
   invalid_days_rejected (fun _ => 0) (fun x => x) (fun _ => 1) ⟨[], [], [], []⟩ [] 0
     "AAPL" (by decide) 0 (by norm_num) (.ok [100])⟩

/-! ## Claim C10 -/

/-- Claim C10: when the `days` query parameter is absent the
orchestrator does not reject the request but proceeds with the default
horizon of 30 days: it answers 200 with `prediction_days = 30` and a
trend forecast of exactly 30 predictions. -/
theorem absent_days_defaults_to_thirty (sqrt th e : ℚ → ℚ) (cellW : LSTMCellWeights)
    (ow0 : List JSNum) (today : ℤ) (t : String) (ht : t ≠ "")
    (prices : List ℚ) (h10 : 10 ≤ prices.length) :
    ∃ s, handleRequest sqrt th e cellW ow0 today (some t) none (.ok prices) =
        ⟨200, .payload s⟩ ∧
      s.prediction_days = 30 ∧
      s.models.getD 0 ⟨"", []⟩ = ⟨"linear_regression", lrPredictions sqrt today prices 30⟩ ∧
      (s.models.getD 0 ⟨"", []⟩).predictions.length = 30 := by
  have hlr : predictLinearRegression sqrt today prices 30 =
      .ok (lrPredictions sqrt today prices 30) := by
    unfold predictLinearRegression
    rw [if_neg (by omega)]
  rcases lt_or_le prices.length 60 with h60 | h60
  · refine ⟨⟨t.toUpper, 30,
      [⟨"linear_regression", lrPredictions sqrt today prices 30⟩],
      some "Insufficient data for LSTM (requires 60+ days)"⟩, ?_, rfl, rfl, ?_⟩
    · simp only [handleRequest, Option.map_some', Option.getD_some, Option.getD_none,
        show ((30 : ℤ)).toNat = 30 from rfl]
      rw [if_neg ht, if_neg (show ¬((30 : ℤ) < 1 ∨ 90 < (30 : ℤ)) by omega)]
      simp only [hlr]
      rw [if_neg (show ¬prices.length < 10 by omega),
        if_neg (show ¬60 ≤ prices.length by omega)]
      simp
    · simp [lrPredictions_length]
  · have hlstm : predictLSTM sqrt th e cellW ow0 today prices 30 =
        .ok (lstmPredictions sqrt th e cellW ow0 today prices 30) := by
      unfold predictLSTM
      rw [if_neg (by omega)]
    refine ⟨⟨t.toUpper, 30,
      [⟨"linear_regression", lrPredictions sqrt today prices 30⟩,
       ⟨"lstm", lstmPredictions sqrt th e cellW ow0 today prices 30⟩], none⟩, ?_, rfl, rfl, ?_⟩
    · simp only [handleRequest, Option.map_some', Option.getD_some, Option.getD_none,
        show ((30 : ℤ)).toNat = 30 from rfl]
      rw [if_neg ht, if_neg (show ¬((30 : ℤ) < 1 ∨ 90 < (30 : ℤ)) by omega)]
      simp only [hlr]
      rw [if_neg (show ¬prices.length < 10 by omega), if_pos h60]
      simp [hlstm, lstmPredictions_length]
    · simp [lrPredictions_length]

/-- Witness for C10 at a concrete ten-point series. -/
theorem absent_days_defaults_to_thirty_witness :
    ("AAPL" ≠ "" ∧ 10 ≤ ([1, 2, 3, 4, 5, 6, 7, 8, 9, 10] : List ℚ).length) ∧
    ∃ s, handleRequest (fun _ => 0) (fun x => x) (fun _ => 1) ⟨[], [], [], []⟩ [] 0
        (some "AAPL") none (.ok [1, 2, 3, 4, 5, 6, 7, 8, 9, 10]) = ⟨200, .payload s⟩ ∧
      s.prediction_days = 30 ∧
      s.models.getD 0 ⟨"", []⟩ =
        ⟨"linear_regression", lrPredictions (fun _ => 0) 0 [1, 2, 3, 4, 5, 6, 7, 8, 9, 10] 30⟩ ∧
      (s.models.getD 0 ⟨"", []⟩).predictions.length = 30 :=
  ⟨⟨by decide, by decide⟩,
   absent_days_defaults_to_thirty (fun _ => 0) (fun x => x) (fun _ => 1) ⟨[], [], [], []⟩ [] 0
     "AAPL" (by decide) [1, 2, 3, 4, 5, 6, 7, 8, 9, 10] (by decide)⟩

/-! ## Claim C2 -/

/-- Claim C2: for every otherwise-valid request whose series has length
in `[10, 59]`, the orchestrator still answers 200 with the trend model's
predictions, the recurrent model absent from the model list and a
non-null error note; and when both models run (length ≥ 60) the model
list is ordered trend model first, recurrent model second. -/
theorem orchestrator_partial_failure_isolation (sqrt th e : ℚ → ℚ) (cellW : LSTMCellWeights)
    (ow0 : List JSNum) (today : ℤ) (t : String) (ht : t ≠ "") (d : ℤ)
    (hd1 : 1 ≤ d) (hd90 : d ≤ 90) (prices : List ℚ) (h10 : 10 ≤ prices.length) :
    ∃ s, handleRequest sqrt th e cellW ow0 today (some t) (some d) (.ok prices) =
        ⟨200, .payload s⟩ ∧
      (prices.length < 60 →
        s.models = [⟨"linear_regression", lrPredictions sqrt today prices d.toNat⟩] ∧
        s.lstm_error = some "Insufficient data for LSTM (requires 60+ days)") ∧
      (60 ≤ prices.length →
        s.models = [⟨"linear_regression", lrPredictions sqrt today prices d.toNat⟩,
          ⟨"lstm", lstmPredictions sqrt th e cellW ow0 today prices d.toNat⟩] ∧
        s.lstm_error = none) := by
  have hlr : predictLinearRegression sqrt today prices d.toNat =
      .ok (lrPredictions sqrt today prices d.toNat) := by
    unfold predictLinearRegression
    rw [if_neg (by omega)]
  rcases lt_or_le prices.length 60 with h60 | h60
  · refine ⟨⟨t.toUpper, d,
      [⟨"linear_regression", lrPredictions sqrt today prices d.toNat⟩],
      some "Insufficient data for LSTM (requires 60+ days)"⟩, ?_, fun _ => ⟨rfl, rfl⟩,
      fun hcon => absurd hcon (by omega)⟩
    simp only [handleRequest, Option.map_some', Option.getD_some]
    rw [if_neg ht, if_neg (show ¬(d < 1 ∨ 90 < d) by omega)]
    simp only [hlr]
    rw [if_neg (show ¬prices.length < 10 by omega),
      if_neg (show ¬60 ≤ prices.length by omega)]
    simp
  · have hlstm : predictLSTM sqrt th e cellW ow0 today prices d.toNat =
        .ok (lstmPredictions sqrt th e cellW ow0 today prices d.toNat) := by
      unfold predictLSTM
      rw [if_neg (by omega)]
    refine ⟨⟨t.toUpper, d,
      [⟨"linear_regression", lrPredictions sqrt today prices d.toNat⟩,
       ⟨"lstm", lstmPredictions sqrt th e cellW ow0 today prices d.toNat⟩], none⟩, ?_,
      fun hcon => absurd hcon (by omega), fun _ => ⟨rfl, rfl⟩⟩
    have hdpos : 0 < d.toNat := by omega
    simp only [handleRequest, Option.map_some', Option.getD_some]
    rw [if_neg ht, if_neg (show ¬(d < 1 ∨ 90 < d) by omega)]
    simp only [hlr]
    rw [if_neg (show ¬prices.length < 10 by omega), if_pos h60]
    simp [hlstm, lstmPredictions_length, hdpos]

/-- Witness for C2 at a concrete ten-point series (trend-only branch). -/
theorem orchestrator_partial_failure_isolation_witness :
    ("AAPL" ≠ "" ∧ (1 : ℤ) ≤ 30 ∧ (30 : ℤ) ≤ 90 ∧
      10 ≤ ([1, 2, 3, 4, 5, 6, 7, 8, 9, 10] : List ℚ).length) ∧
    ∃ s, handleRequest (fun _ => 0) (fun x => x) (fun _ => 1) ⟨[], [], [], []⟩ [] 0
        (some "AAPL") (some 30) (.ok [1, 2, 3, 4, 5, 6, 7, 8, 9, 10]) = ⟨200, .payload s⟩ ∧
      (([1, 2, 3, 4, 5, 6, 7, 8, 9, 10] : List ℚ).length < 60 →
        s.models = [⟨"linear_regression",
          lrPredictions (fun _ => 0) 0 [1, 2, 3, 4, 5, 6, 7, 8, 9, 10] ((30 : ℤ)).toNat⟩] ∧
        s.lstm_error = some "Insufficient data for LSTM (requires 60+ days)") ∧
      (60 ≤ ([1, 2, 3, 4, 5, 6, 7, 8, 9, 10] : List ℚ).length →
        s.models = [⟨"linear_regression",
          lrPredictions (fun _ => 0) 0 [1, 2, 3, 4, 5, 6, 7, 8, 9, 10] ((30 : ℤ)).toNat⟩,
          ⟨"lstm", lstmPredictions (fun _ => 0) (fun x => x) (fun _ => 1) ⟨[], [], [], []⟩ [] 0
            [1, 2, 3, 4, 5, 6, 7, 8, 9, 10] ((30 : ℤ)).toNat⟩] ∧
        s.lstm_error = none) :=
  ⟨⟨by decide, by norm_num, by norm_num, by decide⟩,
   orchestrator_partial_failure_isolation (fun _ => 0) (fun x => x) (fun _ => 1)
     ⟨[], [], [], []⟩ [] 0 "AAPL" (by decide) 30 (by norm_num) (by norm_num)
     [1, 2, 3, 4, 5, 6, 7, 8, 9, 10] (by decide)⟩

end StockPredictor
